import Mathlib

/-!
Verification development for the octomark streaming Markdown-to-HTML parser
(`src/octomark.c`).  The C code is embedded shallowly: bytes are `Char`s,
buffers are `List Char`, the output sink is a `String` built by appends, and
every C loop is either structural recursion or an explicitly fueled recursion
returning `none` on fuel exhaustion (which is used to model genuine
non-termination or out-of-bounds behaviour of the C code at the few places
where those occur).
-/

namespace OM

/-- The backtick character (ASCII 96). -/
def chBacktick : Char := Char.ofNat 96

/-- The double-quote character (ASCII 34). -/
def chQuote : Char := Char.ofNat 34

/-- The single-quote character (ASCII 39). -/
def chApos : Char := Char.ofNat 39

/-- NUL, used as the default for guarded out-of-range reads. -/
def nulc : Char := Char.ofNat 0

/-- C `isspace` on the ASCII range: space, \t, \n, \v, \f, \r. -/
def csIsSpace (c : Char) : Bool :=
  c = ' ' || c = '\t' || c = '\n' || c = Char.ofNat 11 || c = Char.ofNat 12 || c = '\r'

/-- C `isdigit`. -/
def csIsDigit (c : Char) : Bool :=
  '0' ≤ c && c ≤ '9'

/-- C `isalpha` (ASCII). -/
def csIsAlpha (c : Char) : Bool :=
  ('a' ≤ c && c ≤ 'z') || ('A' ≤ c && c ≤ 'Z')

/-- C `isalnum` (ASCII). -/
def csIsAlnum (c : Char) : Bool :=
  csIsAlpha c || csIsDigit c

/-- `octomark_init` marks these bytes as special for the inline scanner:
the characters of the C string "\\['*`&<>\"'_~!$h". -/
def isSpecialChar (c : Char) : Bool :=
  c = '\\' || c = '[' || c = chApos || c = '*' || c = chBacktick || c = '&' ||
  c = '<' || c = '>' || c = chQuote || c = '_' || c = '~' || c = '!' || c = '$' || c = 'h'

/-- `html_escape_map`: the five populated entries set up by `octomark_init`. -/
def htmlEscapeMap (c : Char) : Option String :=
  if c = '&' then some "&amp;"
  else if c = '<' then some "&lt;"
  else if c = '>' then some "&gt;"
  else if c = chQuote then some "&quot;"
  else if c = chApos then some "&#39;"
  else none

/-- Emission of one byte through the escape map (the body of
`append_escaped_text` for a single byte). -/
def escapeChar (c : Char) : String :=
  match htmlEscapeMap c with
  | some e => e
  | none => String.singleton c

/-- `append_escaped_text`: each byte through the escape map, in order. -/
def escapeText (l : List Char) : String :=
  l.foldl (fun acc c => acc ++ escapeChar c) ""

/-- A `List Char` turned back into the string of exactly those bytes
(raw emission via `string_buffer_append_string_n`). -/
def listStr (l : List Char) : String :=
  String.mk l

/-- Number of leading characters satisfying `p`. -/
def countWhile (p : Char → Bool) : List Char → Nat
  | [] => 0
  | c :: r => if p c then countWhile p r + 1 else 0

/-- Index of the first occurrence of `x`, if any. -/
def idxOf (x : Char) : List Char → Option Nat
  | [] => none
  | c :: r => if c = x then some 0 else (idxOf x r).map (· + 1)

/-- Index of the first in-bounds occurrence of the two-byte pattern `x y`. -/
def findPairIdx (x y : Char) : List Char → Option Nat
  | a :: b :: r => if a = x && b = y then some 0 else (findPairIdx x y (b :: r)).map (· + 1)
  | _ => none

/-- Index of the first in-bounds occurrence of the three-byte pattern `x y z`. -/
def findTripleIdx (x y z : Char) : List Char → Option Nat
  | a :: b :: c :: r =>
    if a = x && b = y && c = z then some 0 else (findTripleIdx x y z (b :: c :: r)).map (· + 1)
  | _ => none

/-- `strncmp(text + j, s, n) == 0` restricted to the fragment. -/
def matchAt (t : List Char) (j : Nat) (s : List Char) : Bool :=
  (t.drop j).take s.length == s

/-- The attribute-scanning loop of `try_parse_html_tag` (from the current
position to the closing angle bracket, skipping quoted values).  Returns the
number of bytes before the closing angle bracket, `none` when the tag or a
quote is unclosed.  `fuel` is an upper bound on the iteration count; callers
pass `length + 1`, which is always sufficient since every step consumes at
least one byte. -/
def attrScan : Nat → List Char → Option Nat
  | _, [] => none
  | 0, _ => none
  | fuel + 1, c :: r =>
    if c = '>' then some 0
    else if c = chQuote || c = chApos then
      match idxOf c r with
      | none => none
      | some j => (attrScan fuel (r.drop (j + 1))).map (fun k => k + j + 2)
    else (attrScan fuel r).map (· + 1)

/-- `try_parse_html_tag` applied to the fragment suffix `text` (the C call
receives `text + i` and `len - i`).  Returns the consumed length, `0` on
failure. -/
def tryParseHtmlTag (text : List Char) : Nat :=
  let len := text.length
  if len < 3 || !(text.getD 0 nulc = '<') then 0
  else if 3 < len && text.getD 1 nulc = '!' && text.getD 2 nulc = '-' && text.getD 3 nulc = '-' then
    match findTripleIdx '-' '-' '>' (text.drop 4) with
    | some j => 4 + j + 3
    | none => 0
  else if 8 < len && matchAt text 1 "![CDATA[".toList then
    match findTripleIdx ']' ']' '>' (text.drop 9) with
    | some j => 9 + j + 3
    | none => 0
  else if text.getD 1 nulc = '?' then
    match findPairIdx '?' '>' (text.drop 2) with
    | some j => 2 + j + 2
    | none => 0
  else if text.getD 1 nulc = '!' then
    match idxOf '>' (text.drop 2) with
    | some j => 2 + j + 1
    | none => 0
  else
    let i0 := if text.getD 1 nulc = '/' then 2 else 1
    if i0 < len && csIsAlpha (text.getD i0 nulc) then
      let nm := countWhile (fun c => csIsAlnum c || c = '-' || c = ':') (text.drop i0)
      match attrScan (len + 1) (text.drop (i0 + nm)) with
      | some j => i0 + nm + j + 1
      | none => 0
    else 0

/-- The `**`/`~~` closing scan of `parse_inline_content`: offset of the first
position whose byte and successor both equal `x`; when there is none the scan
stops one byte short of the end (exactly the C loop `while (j+1 < length)`). -/
def pairScan (x : Char) : List Char → Nat
  | a :: b :: r => if a = x && b = x then 0 else 1 + pairScan x (b :: r)
  | _ => 0

/-- The backtick-run match test of `parse_inline_content`: `bc` consecutive
backticks starting at index `j`, all in bounds. -/
def isRunAt (t : List Char) (j bc : Nat) : Bool :=
  (t.drop j).take bc == List.replicate bc chBacktick

/-- The closing-run scan of the backtick branch:
`while (i + bc < length) { i++; if (run at i) break; }`.
Callers pass `t.length + 1` as fuel, which is always sufficient. -/
def btClose (t : List Char) (bc : Nat) : Nat → Nat → Nat
  | 0, i => i
  | fuel + 1, i =>
    if i + bc < t.length then
      if isRunAt t (i + 1) bc then i + 1 else btClose t bc fuel (i + 1)
    else i

/-- The bracket-depth scan of the link branch:
`while (i < length && depth > 0) { adjust depth by text[i]; i++ }`.
Returns the number of consumed bytes. -/
def brScan : List Char → Nat → Nat
  | [], _ => 0
  | c :: r, d =>
    if d = 0 then 0
    else 1 + brScan r (if c = '[' then d + 1 else if c = ']' then d - 1 else d)

/-- `parse_inline_content`, embedded as a fueled recursion: one unit of fuel
is consumed per outer-loop iteration and per recursive inline rendering.
`none` models fuel exhaustion — and, in the backtick branch, the `size_t`
underflow of `i - content_start` that makes the C code read out of bounds
(`append_escaped_text` is then invoked with a near-`2^64` length). -/
def inlineGo (eh : Bool) : Nat → List Char → Nat → Option String
  | 0, t, i0 => if t.length ≤ i0 then some "" else none
  | fuel + 1, t, i0 =>
    if t.length ≤ i0 then some "" else
    let sk := countWhile (fun c => !(isSpecialChar c)) (t.drop i0)
    let pre := listStr ((t.drop i0).take sk)
    let i := i0 + sk
    if t.length ≤ i then some pre else
    let c := t.getD i nulc
    let step : Option String :=
      if c = '<' && eh && 0 < tryParseHtmlTag (t.drop i) then
        let tl := tryParseHtmlTag (t.drop i)
        (inlineGo eh fuel t (i + tl)).map (fun s => listStr ((t.drop i).take tl) ++ s)
      else if c = '\\' then
        if i + 1 < t.length then
          (inlineGo eh fuel t (i + 2)).map
            (fun s => String.singleton (t.getD (i + 1) nulc) ++ s)
        else
          (inlineGo eh fuel t (i + 1)).map (fun s => "<br>" ++ s)
      else if c = '_' then
        let j := i + 1 + countWhile (fun x => !(x = '_')) (t.drop (i + 1))
        if j < t.length then
          (inlineGo eh fuel ((t.drop (i + 1)).take (j - (i + 1))) 0).bind fun inner =>
          (inlineGo eh fuel t (j + 1)).map fun s =>
            "<em>" ++ inner ++ "</em>" ++ s
        else
          (inlineGo eh fuel t (i + 1)).map (fun s => escapeChar c ++ s)
      else if c = '*' && i + 1 < t.length && t.getD (i + 1) nulc = '*' then
        let j := i + 2 + pairScan '*' (t.drop (i + 2))
        if j + 1 < t.length then
          (inlineGo eh fuel ((t.drop (i + 2)).take (j - (i + 2))) 0).bind fun inner =>
          (inlineGo eh fuel t (j + 2)).map fun s =>
            "<strong>" ++ inner ++ "</strong>" ++ s
        else
          (inlineGo eh fuel t (i + 1)).map (fun s => escapeChar c ++ s)
      else if c = chBacktick then
        let bc := 1 + countWhile (fun x => x = chBacktick) (t.drop (i + 1))
        let iEnd := btClose t bc (t.length + 1) i
        if iEnd < i + bc then none
        else
          (inlineGo eh fuel t (iEnd + bc)).map fun s =>
            "<code>" ++ escapeText ((t.drop (i + bc)).take (iEnd - (i + bc))) ++ "</code>" ++ s
      else if c = '~' && i + 1 < t.length && t.getD (i + 1) nulc = '~' then
        let j := i + 2 + pairScan '~' (t.drop (i + 2))
        (inlineGo eh fuel ((t.drop (i + 2)).take (j - (i + 2))) 0).bind fun inner =>
        (inlineGo eh fuel t (j + 2)).map fun s =>
          "<del>" ++ inner ++ "</del>" ++ s
      else if c = '!' || c = '[' then
        let ib := if c = '!' then i + 1 else i
        if ib < t.length && t.getD ib nulc = '[' then
          let lts := ib + 1
          let ia := lts + brScan (t.drop lts) 1
          if ia < t.length && t.getD ia nulc = '(' then
            let ltl := ia - lts - 1
            let us := ia + 1
            let ul := countWhile (fun x => !(x = ')') && !(x = ' ')) (t.drop us)
            let ip := us + ul + countWhile (fun x => !(x = ')')) (t.drop (us + ul))
            if c = '!' then
              (inlineGo eh fuel t (ip + 1)).map fun s =>
                "<img src=\"" ++ listStr ((t.drop us).take ul) ++ "\" alt=\"" ++
                  listStr ((t.drop lts).take ltl) ++ "\">" ++ s
            else
              (inlineGo eh fuel ((t.drop lts).take ltl) 0).bind fun inner =>
              (inlineGo eh fuel t (ip + 1)).map fun s =>
                "<a href=\"" ++ listStr ((t.drop us).take ul) ++ "\">" ++ inner ++ "</a>" ++ s
          else
            (inlineGo eh fuel t (i + 1)).map (fun s => escapeChar c ++ s)
        else
          (inlineGo eh fuel t (i + 1)).map (fun s => escapeChar c ++ s)
      else if c = 'h' && matchAt t i "http".toList &&
          (matchAt t (i + 4) "://".toList || matchAt t (i + 4) "s://".toList) then
        let ul := countWhile (fun x => !(csIsSpace x) && !(x = '<') && !(x = '>')) (t.drop i)
        let url := listStr ((t.drop i).take ul)
        (inlineGo eh fuel t (i + ul)).map fun s =>
          "<a href=\"" ++ url ++ "\">" ++ url ++ "</a>" ++ s
      else if c = '$' then
        let dl := countWhile (fun x => !(x = '$')) (t.drop (i + 1))
        (inlineGo eh fuel t (i + 1 + dl + 1)).map fun s =>
          "<span class=\"math\">" ++ escapeText ((t.drop (i + 1)).take dl) ++ "</span>" ++ s
      else
        (inlineGo eh fuel t (i + 1)).map (fun s => escapeChar c ++ s)
    step.map (fun s => pre ++ s)

/-- `parse_inline_content` with a fuel budget that is always sufficient for
terminating runs (each loop iteration strictly advances the cursor, recursive
calls act on strictly shorter fragments). -/
def parseInlineContent (eh : Bool) (t : List Char) : Option String :=
  inlineGo eh ((t.length + 2) * (t.length + 2)) t 0

/-! ### Block layer: the `OctomarkParser` state and the block stack -/

def BLOCK_UNORDERED_LIST : Int := 0
def BLOCK_ORDERED_LIST : Int := 1
def BLOCK_BLOCKQUOTE : Int := 2
def BLOCK_DEFINITION_LIST : Int := 3
def BLOCK_DEFINITION_DESCRIPTION : Int := 4
def BLOCK_CODE : Int := 5
def BLOCK_MATH : Int := 6
def BLOCK_TABLE : Int := 7
def BLOCK_PARAGRAPH : Int := 8

def MAX_BLOCK_NESTING : Nat := 32

structure BlockEntry where
  block_type : Int
  indent_level : Int
deriving DecidableEq, Repr

inductive TableAlignment where
  | alignNone
  | alignLeft
  | alignCenter
  | alignRight
deriving DecidableEq, Repr

/-- The parser state.  `block_stack` is kept top-first (list head =
`block_stack[stack_depth-1]` of the C array).  `table_alignments` holds the
column alignments in index order; its length is `table_column_count`. -/
structure OctomarkParser where
  table_alignments : List TableAlignment
  block_stack : List BlockEntry
  pending_buffer : List Char
  enable_html : Bool
deriving DecidableEq, Repr

/-- `octomark_init`: empty stack, empty leftover, raw HTML off. -/
def octomarkInit : OctomarkParser :=
  { table_alignments := [], block_stack := [], pending_buffer := [], enable_html := false }

/-- `push_block`: silently ignored at depth `MAX_BLOCK_NESTING`. -/
def pushBlock (p : OctomarkParser) (ty ind : Int) : OctomarkParser :=
  if p.block_stack.length < MAX_BLOCK_NESTING then
    { p with block_stack := ⟨ty, ind⟩ :: p.block_stack }
  else p

/-- `peek_block`. -/
def peekBlock (p : OctomarkParser) : Option BlockEntry :=
  p.block_stack.head?

/-- `pop_block` (no-op on an empty stack). -/
def popBlock (p : OctomarkParser) : OctomarkParser :=
  { p with block_stack := p.block_stack.tail }

/-- `get_current_block_type`: `-1` on an empty stack. -/
def getCurrentBlockType (p : OctomarkParser) : Int :=
  match p.block_stack.head? with
  | some e => e.block_type
  | none => -1

/-- The closing emission of `render_and_close_top_block` for one block type. -/
def closeStringOf (ty : Int) : String :=
  if ty = BLOCK_UNORDERED_LIST then "</li>\n</ul>\n"
  else if ty = BLOCK_ORDERED_LIST then "</li>\n</ol>\n"
  else if ty = BLOCK_BLOCKQUOTE then "</blockquote>\n"
  else if ty = BLOCK_DEFINITION_LIST then "</dl>\n"
  else if ty = BLOCK_DEFINITION_DESCRIPTION then "</dd>\n"
  else if ty = BLOCK_CODE then "</code></pre>\n"
  else if ty = BLOCK_MATH then "</div>\n"
  else if ty = BLOCK_TABLE then "</tbody></table>\n"
  else if ty = BLOCK_PARAGRAPH then "</p>\n"
  else ""

/-- `render_and_close_top_block`. -/
def renderAndCloseTopBlock (p : OctomarkParser) : OctomarkParser × String :=
  match p.block_stack with
  | [] => (p, "")
  | e :: rest => ({ p with block_stack := rest }, closeStringOf e.block_type)

/-- `close_paragraph_if_open`. -/
def closeParagraphIfOpen (p : OctomarkParser) : OctomarkParser × String :=
  if getCurrentBlockType p = BLOCK_PARAGRAPH then renderAndCloseTopBlock p else (p, "")

/-- `close_leaf_blocks`. -/
def closeLeafBlocks (p : OctomarkParser) : OctomarkParser × String :=
  let ty := getCurrentBlockType p
  if ty = BLOCK_PARAGRAPH || ty = BLOCK_TABLE || ty = BLOCK_CODE || ty = BLOCK_MATH then
    renderAndCloseTopBlock p
  else (p, "")

/-- Trailing-whitespace trim used by the table cell splitters
(`while (end > start && isspace(end[-1])) end--`). -/
def trimTrailing (l : List Char) : List Char :=
  (l.reverse.dropWhile csIsSpace).reverse

/-- Loop body of `split_table_row_cells` (after the leading spaces and the
optional leading bar were consumed).  Fuel `l.length + 1` is always
sufficient: every iteration consumes at least one byte. -/
def splitCellsGo : Nat → List Char → List (List Char)
  | 0, _ => []
  | fuel + 1, l =>
    let l1 := l.dropWhile csIsSpace
    match l1 with
    | [] => []
    | _ :: _ =>
      let cell := l1.takeWhile (fun c => !(c = '|') && !(c = '\n'))
      let rest := l1.drop cell.length
      let rest2 := if rest.head? = some '|' then rest.tail else rest
      trimTrailing cell :: splitCellsGo fuel rest2

/-- `split_table_row_cells`: trimmed cells of a `|`-delimited row. -/
def splitTableRowCells (line : List Char) : List (List Char) :=
  let l := line.dropWhile csIsSpace
  let l := if l.head? = some '|' then l.tail else l
  splitCellsGo (l.length + 1) l

/-- `is_block_start_marker`. -/
def isBlockStartMarker (str : List Char) : Bool :=
  let len := str.length
  (3 ≤ len && str.take 3 == List.replicate 3 chBacktick) ||
  (2 ≤ len && str.getD 0 nulc = '$' && str.getD 1 nulc = '$') ||
  (1 ≤ len && (str.getD 0 nulc = '#' || str.getD 0 nulc = ':')) ||
  (2 ≤ len && str.getD 0 nulc = '-' && str.getD 1 nulc = ' ') ||
  (3 ≤ len && csIsDigit (str.getD 0 nulc) && str.getD 1 nulc = '.' && str.getD 2 nulc = ' ') ||
  (3 ≤ len && (str.take 3 == "---".toList || str.take 3 == "***".toList ||
               str.take 3 == "___".toList))

/-- `process_leaf_block_continuation`: returns (handled?, new state, output). -/
def processLeafBlockContinuation (p : OctomarkParser) (line : List Char) :
    Bool × OctomarkParser × String :=
  let top := getCurrentBlockType p
  if !(top = BLOCK_CODE) && !(top = BLOCK_MATH) then (false, p, "")
  else
    let trimmed := line.dropWhile csIsSpace
    if top = BLOCK_CODE then
      if 3 ≤ trimmed.length && trimmed.take 3 == List.replicate 3 chBacktick then
        let (p', o) := renderAndCloseTopBlock p
        (true, p', o)
      else (true, p, escapeText line ++ "\n")
    else
      if 2 ≤ trimmed.length && trimmed.take 2 == "$$".toList then
        let (p', o) := renderAndCloseTopBlock p
        (true, p', o)
      else (true, p, escapeText line ++ "\n")

/-- `try_parse_fenced_code_block` (`none` = construct not recognized). -/
def tryParseFencedCodeBlock (p : OctomarkParser) (lc : List Char) :
    Option (OctomarkParser × String) :=
  if 3 ≤ lc.length && lc.take 3 == List.replicate 3 chBacktick then
    let (p1, o1) := closeLeafBlocks p
    let langLen := countWhile (fun c => !(csIsSpace c)) (lc.drop 3)
    let langPart :=
      if 0 < langLen then
        " class=\"language-" ++ escapeText ((lc.drop 3).take langLen) ++ "\""
      else ""
    some (pushBlock p1 BLOCK_CODE 0, o1 ++ "<pre><code" ++ langPart ++ ">")
  else none

/-- `try_parse_math_block`. -/
def tryParseMathBlock (p : OctomarkParser) (lc : List Char) :
    Option (OctomarkParser × String) :=
  if 2 ≤ lc.length && lc.getD 0 nulc = '$' && lc.getD 1 nulc = '$' then
    let (p1, o1) := closeLeafBlocks p
    some (pushBlock p1 BLOCK_MATH 0, o1 ++ "<div class=\"math\">\n")
  else none

/-- `try_parse_header`.  The outer `Option` is "construct recognized"; the
inner one propagates a failing inline rendering. -/
def tryParseHeader (p : OctomarkParser) (lc : List Char) :
    Option (Option (OctomarkParser × String)) :=
  if 2 ≤ lc.length && lc.getD 0 nulc = '#' then
    let level := min 6 (countWhile (fun c => c = '#') lc)
    if level < lc.length && lc.getD level nulc = ' ' then
      let (p1, o1) := closeLeafBlocks p
      match parseInlineContent p.enable_html (lc.drop (level + 1)) with
      | some inner =>
        some (some (p1,
          o1 ++ "<h" ++ toString level ++ ">" ++ inner ++ "</h" ++ toString level ++ ">\n"))
      | none => some none
    else none
  else none

/-- `try_parse_horizontal_rule`. -/
def tryParseHorizontalRule (p : OctomarkParser) (lc : List Char) :
    Option (OctomarkParser × String) :=
  if lc.length = 3 && (lc == "---".toList || lc == "***".toList || lc == "___".toList) then
    let (p1, o1) := closeLeafBlocks p
    some (p1, o1 ++ "<hr>\n")
  else none

/-- The `while (get_current_block_type != DEFINITION_LIST && depth > 0)` loop
of `try_parse_definition_list`.  Fuel `stack length + 1` is always enough. -/
def closeUntilDLGo : Nat → OctomarkParser → String → OctomarkParser × String
  | 0, p, out => (p, out)
  | fuel + 1, p, out =>
    if !(getCurrentBlockType p = BLOCK_DEFINITION_LIST) && 0 < p.block_stack.length then
      let (p', o) := renderAndCloseTopBlock p
      closeUntilDLGo fuel p' (out ++ o)
    else (p, out)

/-- `try_parse_definition_list`; on success returns the advanced line content
together with the new state and output. -/
def tryParseDefinitionList (p : OctomarkParser) (lc : List Char) (leadingSpaces : Nat) :
    Option (List Char × OctomarkParser × String) :=
  if lc.head? = some ':' then
    let lc1 := lc.tail
    let lc2 := if lc1.head? = some ' ' then lc1.tail else lc1
    let (p1, o1) := closeParagraphIfOpen p
    let inDL := p1.block_stack.any (fun e => e.block_type = BLOCK_DEFINITION_LIST)
    let inDD := p1.block_stack.any (fun e => e.block_type = BLOCK_DEFINITION_DESCRIPTION)
    let p2 := if !inDL then pushBlock p1 BLOCK_DEFINITION_LIST (Int.ofNat leadingSpaces) else p1
    let o2 := if !inDL then o1 ++ "<dl>\n" else o1
    let p3 := if inDD then (closeUntilDLGo (p2.block_stack.length + 1) p2 o2).1 else p2
    let o3 := if inDD then (closeUntilDLGo (p2.block_stack.length + 1) p2 o2).2 else o2
    some (lc2, pushBlock p3 BLOCK_DEFINITION_DESCRIPTION (Int.ofNat leadingSpaces), o3 ++ "<dd>")
  else none

/-- The closing loop at the head of `try_parse_list_item` (pop list blocks
whose indent or kind does not fit).  Fuel `stack length + 1` always covers
it since every iteration pops one entry. -/
def listPopGo : Nat → OctomarkParser → String → Int → Int → OctomarkParser × String
  | 0, p, out, _, _ => (p, out)
  | fuel + 1, p, out, target, ci =>
    if 0 < p.block_stack.length && getCurrentBlockType p < BLOCK_BLOCKQUOTE &&
        (match peekBlock p with
         | some e => ci < e.indent_level || (e.indent_level = ci && !(e.block_type = target))
         | none => false) then
      let (p', o) := renderAndCloseTopBlock p
      listPopGo fuel p' (out ++ o) target ci
    else (p, out)

/-- `try_parse_list_item`; on success returns the advanced line content. -/
def tryParseListItem (p : OctomarkParser) (lc : List Char) (leadingSpaces : Nat) :
    Option (List Char × OctomarkParser × String) :=
  let internal := countWhile (fun c => c = ' ') lc
  let l := lc.drop internal
  let isUL := 2 ≤ l.length && l.getD 0 nulc = '-' && l.getD 1 nulc = ' '
  let isOL := 3 ≤ l.length && csIsDigit (l.getD 0 nulc) && l.getD 1 nulc = '.' &&
    l.getD 2 nulc = ' '
  if isUL || isOL then
    let target := if isUL then BLOCK_UNORDERED_LIST else BLOCK_ORDERED_LIST
    let ci : Int := Int.ofNat (leadingSpaces + internal)
    let (p1, o1) := listPopGo (p.block_stack.length + 1) p "" target ci
    let sameTop := getCurrentBlockType p1 = target &&
      (match peekBlock p1 with
       | some e => e.indent_level = ci
       | none => false)
    let (pa, oa) := closeLeafBlocks p1
    let p2 := if sameTop then pa else pushBlock pa target ci
    let o2 := o1 ++ oa ++
      (if sameTop then "</li>\n<li>"
       else if target = BLOCK_UNORDERED_LIST then "<ul>\n<li>" else "<ol>\n<li>")
    let lc1 := l.drop (if isUL then 2 else 3)
    let hasBox := isUL && 4 ≤ lc1.length && lc1.getD 0 nulc = '[' &&
        (lc1.getD 1 nulc = ' ' || lc1.getD 1 nulc = 'x') &&
        lc1.getD 2 nulc = ']' && lc1.getD 3 nulc = ' '
    let box :=
      if hasBox then
        if lc1.getD 1 nulc = 'x' then "<input type=\"checkbox\" checked disabled> "
        else "<input type=\"checkbox\"  disabled> "
      else ""
    some (if hasBox then lc1.drop 4 else lc1, p2, o2 ++ box)
  else none

/-- Alignment of one (already trimmed) separator cell. -/
def alignOfCell (cell : List Char) : TableAlignment :=
  match cell.head?, cell.getLast? with
  | some a, some b =>
    if a = ':' && b = ':' then TableAlignment.alignCenter
    else if b = ':' then TableAlignment.alignRight
    else if a = ':' then TableAlignment.alignLeft
    else TableAlignment.alignNone
  | _, _ => TableAlignment.alignNone

/-- The alignment-collection loop of `try_parse_table`, over the part of the
lookahead line that follows its first bar.  Writes are modelled as list
append: the C code performs `table_alignments[table_column_count++] = align`
without any bound check, so the resulting length is exactly the number of
(possibly more than 64) writes. -/
def alignLoopGo : Nat → List Char → List TableAlignment
  | 0, _ => []
  | fuel + 1, l =>
    let l1 := l.dropWhile csIsSpace
    match l1 with
    | [] => []
    | _ :: _ =>
      let cell := l1.takeWhile (fun c => !(c = '|'))
      let rest := l1.drop cell.length
      let rest2 := if rest.head? = some '|' then rest.tail else rest
      alignOfCell (trimTrailing cell) :: alignLoopGo fuel rest2

/-- Alignments computed from a separator lookahead line. -/
def alignmentsOfLookahead (lookahead : List Char) : List TableAlignment :=
  let cs := (lookahead.dropWhile (fun c => !(c = '|'))).drop 1
  alignLoopGo (cs.length + 1) cs

/-- The alignment read `k < table_column_count ? table_alignments[k] : NONE`. -/
def alignRead (aligns : List TableAlignment) (k : Nat) : TableAlignment :=
  aligns.getD k TableAlignment.alignNone

/-- The `style` attribute selected by an alignment. -/
def styleOf (a : TableAlignment) : String :=
  match a with
  | TableAlignment.alignLeft => " style=\"text-align:left\""
  | TableAlignment.alignCenter => " style=\"text-align:center\""
  | TableAlignment.alignRight => " style=\"text-align:right\""
  | TableAlignment.alignNone => ""

/-- The header/body cell emission loop shared shape: renders each cell of
`cells` as `<tag[ style]>…</tag>` with its inline content. -/
def emitCellsGo (eh : Bool) (tag : String) (aligns : List TableAlignment) :
    Nat → List (List Char) → Option String
  | _, [] => some ""
  | k, cell :: rest => do
    let inner ← parseInlineContent eh cell
    let tailOut ← emitCellsGo eh tag aligns (k + 1) rest
    pure ("<" ++ tag ++ styleOf (alignRead aligns k) ++ ">" ++ inner ++ "</" ++ tag ++ ">" ++
      tailOut)

/-- `try_parse_table`.  Outer `Option` = construct not recognized (C returned
`false`); inner `Option` propagates inline failures.  Both successful branches
of the C function `return true`, which the caller turns into the
"skip the next line" flag. -/
def tryParseTable (p : OctomarkParser) (lc : List Char) (rest : List Char) :
    Option (Option (OctomarkParser × String)) :=
  if 0 < lc.length && lc.getD 0 nulc = '|' then
    if !(getCurrentBlockType p = BLOCK_TABLE) then
      if rest.contains '\n' then
        let lookahead := rest.takeWhile (fun c => !(c = '\n'))
        let laSpaces := countWhile (fun c => c = ' ') lookahead
        if laSpaces < lookahead.length && lookahead.getD laSpaces nulc = '|' then
          let (p1, o1) := closeLeafBlocks p
          let aligns := alignmentsOfLookahead lookahead
          let p2 := { p1 with table_alignments := aligns }
          let headerCells := splitTableRowCells lc
          match emitCellsGo p2.enable_html "th" aligns 0 headerCells with
          | some cellsOut =>
            some (some (pushBlock p2 BLOCK_TABLE 0,
              o1 ++ "<table><thead><tr>" ++ cellsOut ++ "</tr></thead><tbody>\n"))
          | none => some none
        else none
      else none
    else
      match emitCellsGo p.enable_html "td" p.table_alignments 0 (splitTableRowCells lc) with
      | some cellsOut => some (some (p, "<tr>" ++ cellsOut ++ "</tr>\n"))
      | none => some none
  else none

/-- `try_parse_definition_term`. -/
def tryParseDefinitionTerm (p : OctomarkParser) (lc : List Char) (rest : List Char) :
    Option (Option (OctomarkParser × String)) :=
  if rest.contains '\n' then
    let lookahead := rest.takeWhile (fun c => !(c = '\n'))
    let la := lookahead.dropWhile csIsSpace
    if la.head? = some ':' then
      let (p1, o1) := closeLeafBlocks p
      let p2 :=
        if p1.block_stack.length = 0 || !(getCurrentBlockType p1 = BLOCK_DEFINITION_LIST) then
          pushBlock p1 BLOCK_DEFINITION_LIST 0
        else p1
      let o2 :=
        if p1.block_stack.length = 0 || !(getCurrentBlockType p1 = BLOCK_DEFINITION_LIST) then
          o1 ++ "<dl>\n"
        else o1
      match parseInlineContent p.enable_html lc with
      | some inner => some (some (p2, o2 ++ "<dt>" ++ inner ++ "</dt>\n"))
      | none => some none
    else none
  else none

/-- `process_paragraph`. -/
def processParagraph (p : OctomarkParser) (lc : List Char) (isDL isList : Bool) :
    Option (OctomarkParser × String) :=
  let inContainer := 0 < p.block_stack.length &&
    (getCurrentBlockType p < BLOCK_BLOCKQUOTE ||
     getCurrentBlockType p = BLOCK_DEFINITION_DESCRIPTION)
  let p1 :=
    if !(getCurrentBlockType p = BLOCK_PARAGRAPH) && !inContainer then
      pushBlock p BLOCK_PARAGRAPH 0
    else p
  let o1 :=
    if !(getCurrentBlockType p = BLOCK_PARAGRAPH) && !inContainer then "<p>"
    else if getCurrentBlockType p = BLOCK_PARAGRAPH ||
        (inContainer && !isList && !isDL) then "\n"
    else ""
  let len := lc.length
  let lineBreak := 2 ≤ len && lc.getD (len - 1) nulc = ' ' && lc.getD (len - 2) nulc = ' '
  match parseInlineContent p.enable_html (if lineBreak then lc.take (len - 2) else lc) with
  | some inner => some (p1, o1 ++ inner ++ (if lineBreak then "<br>" else ""))
  | none => none

/-- The blockquote-marker strip: a prefix of `>` markers, each optionally
followed by one space.  Returns (count, rest of the line). -/
def stripQuotes : List Char → Nat × List Char
  | '>' :: ' ' :: r =>
    let (n, rest) := stripQuotes r
    (n + 1, rest)
  | '>' :: r =>
    let (n, rest) := stripQuotes r
    (n + 1, rest)
  | r => (0, r)

/-- The quote-closing loop (`while (current_quote_level > quote_level)`).
Each iteration pops one entry, so fuel `stack length + 1` always covers it;
the `none` cases (empty stack with the counter still positive) are where the
C loop would spin forever — unreachable when the counter is the true number
of blockquote entries on the stack. -/
def closeQuotesGo : Nat → OctomarkParser → String → Nat → Nat →
    Option (OctomarkParser × String)
  | 0, p, out, cq, ql => if cq ≤ ql then some (p, out) else none
  | fuel + 1, p, out, cq, ql =>
    if cq ≤ ql then some (p, out)
    else
      match p.block_stack with
      | [] => none
      | e :: _ =>
        let (p', o) := renderAndCloseTopBlock p
        closeQuotesGo fuel p' (out ++ o)
          (if e.block_type = BLOCK_BLOCKQUOTE then cq - 1 else cq) ql

/-- The blockquote-opening loop (`while (stack_depth < quote_level)`): close
a top paragraph, emit the tag, push.  This loop does not terminate in C when
the quote level exceeds the remaining capacity of the stack (`push_block`
silently refuses and the depth never reaches the target), so it is fueled and
`none` models that divergence. -/
def openQuotesGo : Nat → OctomarkParser → String → Nat → Option (OctomarkParser × String)
  | 0, p, out, ql => if p.block_stack.length < ql then none else some (p, out)
  | fuel + 1, p, out, ql =>
    if p.block_stack.length < ql then
      let (p1, o1) := closeParagraphIfOpen p
      openQuotesGo fuel (pushBlock p1 BLOCK_BLOCKQUOTE 0) (out ++ o1 ++ "<blockquote>") ql
    else some (p, out)

/-- The container-closing loop of the blank-line case
(`while (depth > 0 && top >= BLOCKQUOTE)`).  Fuel `stack length + 1` always
covers it. -/
def closeContainersGo : Nat → OctomarkParser → String → OctomarkParser × String
  | 0, p, out => (p, out)
  | fuel + 1, p, out =>
    if 0 < p.block_stack.length && BLOCK_BLOCKQUOTE ≤ getCurrentBlockType p then
      let (p', o) := renderAndCloseTopBlock p
      closeContainersGo fuel p' (out ++ o)
    else (p, out)

/-- The definition-list attempt of `process_single_line` as a total step:
line content, state, accumulated output, and the `is_dl` flag. -/
def dlStep (p : OctomarkParser) (lc : List Char) (ls : Nat) (o : String) :
    List Char × OctomarkParser × String × Bool :=
  match tryParseDefinitionList p lc ls with
  | some (lc', p', o') => (lc', p', o ++ o', true)
  | none => (lc, p, o, false)

/-- The list-item attempt of `process_single_line` as a total step. -/
def liStep (p : OctomarkParser) (lc : List Char) (ls : Nat) (o : String) :
    List Char × OctomarkParser × String × Bool :=
  match tryParseListItem p lc ls with
  | some (lc', p', o') => (lc', p', o ++ o', true)
  | none => (lc, p, o, false)

/-- The tail of the classifier chain of `process_single_line` (C lines
905-922): fenced code, math block, heading, thematic break, table,
definition term, paragraph — first match wins, the table consuming the
following line. -/
def classifyRest (p : OctomarkParser) (lc rest : List Char) (isDL isList : Bool) :
    Option (OctomarkParser × String × Bool) :=
  match tryParseFencedCodeBlock p lc with
  | some (p', o') => some (p', o', false)
  | none =>
  match tryParseMathBlock p lc with
  | some (p', o') => some (p', o', false)
  | none =>
  match tryParseHeader p lc with
  | some (some (p', o')) => some (p', o', false)
  | some none => none
  | none =>
  match tryParseHorizontalRule p lc with
  | some (p', o') => some (p', o', false)
  | none =>
  match tryParseTable p lc rest with
  | some (some (p', o')) => some (p', o', true)
  | some none => none
  | none =>
  match tryParseDefinitionTerm p lc rest with
  | some (some (p', o')) => some (p', o', false)
  | some none => none
  | none =>
  match processParagraph p lc isDL isList with
  | some (p', o') => some (p', o', false)
  | none => none

/-- `process_single_line`: classifies one complete line (`line`, without its
newline) with `rest` the bytes that remain beyond it in the accumulated
buffer (the lookahead region).  Returns the new state, the emitted bytes and
the `consumed_next` flag; `none` models a diverging C execution. -/
def processSingleLine (p : OctomarkParser) (line : List Char) (rest : List Char) :
    Option (OctomarkParser × String × Bool) :=
  let (handled, pA, oA) := processLeafBlockContinuation p line
  if handled then some (pA, oA, false)
  else
    let leadingSpaces := countWhile (fun c => c = ' ') line
    let lc0 := line.drop leadingSpaces
    if lc0.length = 0 then
      let (p1, o1) := closeLeafBlocks p
      let (p2, o2) := closeContainersGo (p1.block_stack.length + 1) p1 o1
      some (p2, o2, false)
    else
      let (ql0, lc1) := stripQuotes lc0
      let cql := (p.block_stack.filter (fun e => e.block_type = BLOCK_BLOCKQUOTE)).length
      let ql :=
        if ql0 < cql && getCurrentBlockType p = BLOCK_PARAGRAPH then
          let ti := countWhile (fun c => c = ' ') lc1
          if !(isBlockStartMarker (lc1.drop ti)) then cql else ql0
        else ql0
      (closeQuotesGo (p.block_stack.length + 1) p "" cql ql).bind fun (p1, o1) =>
      (openQuotesGo (2 * ql + 2) p1 o1 ql).bind fun (p2, o2) =>
      let (lc2, p3, o3, isDL) := dlStep p2 lc1 leadingSpaces o2
      let (lc3, p4, o4, isList) := liStep p3 lc2 leadingSpaces o3
      match classifyRest p4 lc3 rest isDL isList with
      | some (p', o', sk) => some (p', o4 ++ o', sk)
      | none => none

/-- The line-splitting loop of `octomark_feed` over the accumulated buffer
`data`.  Every iteration advances `pos` by at least one byte, so fuel
`data.length + 1` is always sufficient; `none` only arises from a diverging
`process_single_line`. -/
def feedGo (data : List Char) : Nat → Nat → OctomarkParser → String →
    Option (OctomarkParser × String × Nat)
  | fuel, pos, p, out =>
    if (data.drop pos).contains '\n' then
      match fuel with
      | 0 => none
      | fuel + 1 =>
        let line := (data.drop pos).takeWhile (fun c => !(c = '\n'))
        let pos1 := pos + line.length + 1
        (processSingleLine p line (data.drop pos1)).bind fun (p', o, skip) =>
          let pos2 :=
            if skip then
              match idxOf '\n' (data.drop pos1) with
              | some j => pos1 + j + 1
              | none => data.length
            else pos1
          feedGo data fuel pos2 p' (out ++ o)
    else some (p, out, pos)

/-- `octomark_feed`: append the chunk to the leftover buffer, process every
complete line, keep the residual tail. -/
def octomarkFeed (p : OctomarkParser) (chunk : List Char) : Option (OctomarkParser × String) :=
  let data := p.pending_buffer ++ chunk
  (feedGo data (data.length + 1) 0 { p with pending_buffer := data } "").map
    fun (p', out, pos) => ({ p' with pending_buffer := data.drop pos }, out)

/-- The final stack unwinding of `octomark_finish`
(`while (stack_depth > 0) render_and_close_top_block`). -/
def closeAllGo : Nat → OctomarkParser → String → OctomarkParser × String
  | 0, p, out => (p, out)
  | fuel + 1, p, out =>
    if 0 < p.block_stack.length then
      let (p', o) := renderAndCloseTopBlock p
      closeAllGo fuel p' (out ++ o)
    else (p, out)

/-- `octomark_finish`: process the residual tail (with empty lookahead), then
close every open block. -/
def octomarkFinish (p : OctomarkParser) : Option (OctomarkParser × String) :=
  if 0 < p.pending_buffer.length then
    match processSingleLine p p.pending_buffer [] with
    | some (p1, o1, _) => some (closeAllGo (p1.block_stack.length + 1) p1 o1)
    | none => none
  else
    some (closeAllGo (p.block_stack.length + 1) p "")

/-- Feed a list of chunks in order, concatenating the outputs. -/
def feedMany : OctomarkParser → List (List Char) → Option (OctomarkParser × String)
  | p, [] => some (p, "")
  | p, c :: cs =>
    match octomarkFeed p c with
    | none => none
    | some (p1, o1) =>
      match feedMany p1 cs with
      | none => none
      | some (p2, o2) => some (p2, o1 ++ o2)

/-- Feed the chunks in order from state `p`, then finish: the complete output
byte stream of the streaming driver from that state on. -/
def octoRunFrom (p : OctomarkParser) (chunks : List (List Char)) : Option String :=
  match feedMany p chunks with
  | none => none
  | some (p1, o1) =>
    match octomarkFinish p1 with
    | none => none
    | some (_, o2) => some (o1 ++ o2)

/-- Feed the chunks from a fresh parser and finish. -/
def octoRunChunksL (chunks : List (List Char)) : Option String :=
  octoRunFrom octomarkInit chunks

/-- Same, over strings. -/
def octoRunChunks (chunks : List String) : Option String :=
  octoRunChunksL (chunks.map String.toList)

/-- One-shot run: the whole document in a single feed. -/
def octoRunL (input : List Char) : Option String :=
  octoRunChunksL [input]

/-- One-shot run over a string. -/
def octoRun (input : String) : Option String :=
  octoRunL input.toList

/-! ### Generic helper lemmas -/

theorem getD_eq_headD_drop (l : List Char) (i : Nat) (d : Char) :
    l.getD i d = (l.drop i).headD d := by
  induction l generalizing i with
  | nil => simp [List.getD]
  | cons a r ih => cases i <;> simp [List.getD, ih]

theorem contains_append_eq (a b : List Char) (x : Char) :
    (a ++ b).contains x = (a.contains x || b.contains x) := by
  induction a with
  | nil => simp
  | cons c r ih => simp [List.contains_cons, ih, Bool.or_assoc]

theorem forall_of_not_contains {l : List Char} {x : Char} (h : l.contains x = false) :
    ∀ c ∈ l, c ≠ x := by
  induction l with
  | nil => intro c hc; cases hc
  | cons a r ih =>
    simp only [List.contains_cons, Bool.or_eq_false_iff] at h
    intro c hc
    rcases List.mem_cons.mp hc with hc1 | hc1
    · subst hc1
      intro he
      subst he
      simp at h
    · exact ih h.2 c hc1

theorem countWhile_le_length (p : Char → Bool) (l : List Char) :
    countWhile p l ≤ l.length := by
  induction l with
  | nil => simp [countWhile]
  | cons c r ih =>
    simp only [countWhile, List.length_cons]
    split
    · omega
    · omega

theorem countWhile_cons_false {p : Char → Bool} {c : Char} (l : List Char)
    (h : p c = false) : countWhile p (c :: l) = 0 := by
  simp [countWhile, h]

theorem countWhile_all_append {p : Char → Bool} {l : List Char}
    (h : ∀ x ∈ l, p x = true) (r : List Char) :
    countWhile p (l ++ r) = l.length + countWhile p r := by
  induction l with
  | nil => simp
  | cons c t ih =>
    have hc : p c = true := h c (by simp)
    simp only [List.cons_append, countWhile, hc, if_pos]
    rw [show t.append r = t ++ r from rfl, ih (fun x hx => h x (by simp [hx]))]
    simp [List.length_cons]
    omega

theorem takeWhile_all_append_cons {p : Char → Bool} {l : List Char}
    (h : ∀ x ∈ l, p x = true) (y : Char) (hy : p y = false) (r : List Char) :
    (l ++ y :: r).takeWhile p = l := by
  induction l with
  | nil => simp [List.takeWhile, hy]
  | cons c t ih =>
    have hc : p c = true := h c (by simp)
    simp only [List.cons_append, List.takeWhile, hc]
    rw [show t.append (y :: r) = t ++ y :: r from rfl, ih (fun x hx => h x (by simp [hx]))]

theorem dropWhile_space_head_bar (l : List Char) :
    (countWhile (fun c => c = ' ') l < l.length ∧
      l.getD (countWhile (fun c => c = ' ') l) nulc = '|') ↔
    (l.dropWhile (fun c => c = ' ')).head? = some '|' := by
  induction l with
  | nil => simp [countWhile]
  | cons a r ih =>
    by_cases ha : a = ' '
    · subst ha
      have hc : countWhile (fun c => c = ' ') (' ' :: r) =
          countWhile (fun c => c = ' ') r + 1 := by simp [countWhile]
      have hd : List.dropWhile (fun c => c = ' ') (' ' :: r) =
          List.dropWhile (fun c => c = ' ') r := by simp
      rw [hc, hd, List.getD_cons_succ, List.length_cons, Nat.add_lt_add_iff_right]
      exact ih
    · have hc : countWhile (fun c => c = ' ') (a :: r) = 0 := by
        simp [countWhile, ha]
      have hd : List.dropWhile (fun c => c = ' ') (a :: r) = a :: r := by
        simp [ha]
      rw [hc, hd, List.getD_cons_zero]
      simp

/-! ### Claim C1 — counterexample -/

/-- Claim C1 is false as stated: feeding `"| a |\n|---|\n"` in one chunk
yields a table, while feeding the same bytes split at the line boundary
between the table header and its separator yields a paragraph, because
`octomark_feed` resolves the missing lookahead eagerly (the header line is
classified while the separator line is not yet in the buffer, so the
table-open test fails and the line falls through to the paragraph rule). -/
theorem c1_chunking_counterexample :
    octoRunChunks ["| a |\n", "|---|\n"] ≠ octoRunChunks ["| a |\n|---|\n"] ∧
    octoRunChunks ["| a |\n", "|---|\n"] = some "<p>| a |\n|---|</p>\n" ∧
    octoRunChunks ["| a |\n|---|\n"] =
      some "<table><thead><tr><th>a</th></tr></thead><tbody>\n</tbody></table>\n" := by
  refine ⟨?_, by decide, by decide⟩
  decide

/-! ### Claim C4 — counterexample -/

/-- Claim C4 is false as stated: with input `"| a |\n| b |\n"` the lookahead
line `"| b |"` is not a valid separator row (its cell is `b`, not made of
`-`/`:`), yet `try_parse_table` opens a table anyway — the code only checks
that the lookahead line starts with optional spaces and a bar, never the
`:?-+:?` cell shape — so the output does contain `<table>`. -/
theorem c4_invalid_separator_opens_table :
    octoRun "| a |\n| b |\n" =
      some "<table><thead><tr><th>a</th></tr></thead><tbody>\n</tbody></table>\n" ∧
    (octoRun "| a |\n| b |\n").map (fun s => s.take 7) = some "<table>" := by
  exact ⟨by decide, by decide⟩

/-- Claim C4, amended: when no table is open, `try_parse_table` recognizes a
table exactly when the current line starts with `|` and the lookahead line
starts with optional spaces followed by `|`; the `:?-+:?` cell shape of the
lookahead is never validated. -/
theorem c4_table_open_iff_lookahead_bar (p : OctomarkParser) (lc la more : List Char)
    (hnt : ¬(getCurrentBlockType p = BLOCK_TABLE))
    (hla : la.contains '\n' = false) :
    (tryParseTable p lc (la ++ ('\n' :: more))).isSome = true ↔
    (0 < lc.length ∧ lc.getD 0 nulc = '|' ∧
      (la.dropWhile (fun c => c = ' ')).head? = some '|') := by
  have hcont : (la ++ ('\n' :: more)).contains '\n' = true := by
    rw [contains_append_eq]
    simp
  have htw : (la ++ ('\n' :: more)).takeWhile (fun c => !(c = '\n')) = la :=
    takeWhile_all_append_cons
      (fun x hx => by
        have hne := forall_of_not_contains hla x hx
        simp [hne])
      '\n' (by simp) more
  simp only [tryParseTable]
  by_cases h0 : 0 < lc.length ∧ lc.getD 0 nulc = '|'
  · rw [if_pos (by
      simp only [Bool.and_eq_true, decide_eq_true_eq]
      exact h0)]
    rw [if_pos (by simp [hnt])]
    rw [if_pos hcont, htw]
    by_cases h1 : countWhile (fun c => c = ' ') la < la.length ∧
        la.getD (countWhile (fun c => c = ' ') la) nulc = '|'
    · rw [if_pos (by
        simp only [Bool.and_eq_true, decide_eq_true_eq]
        exact h1)]
      have hrhs : 0 < lc.length ∧ lc.getD 0 nulc = '|' ∧
          (la.dropWhile (fun c => c = ' ')).head? = some '|' :=
        ⟨h0.1, h0.2, (dropWhile_space_head_bar la).mp h1⟩
      split
      · exact iff_of_true rfl hrhs
      · exact iff_of_true rfl hrhs
    · rw [if_neg (by
        simp only [Bool.and_eq_true, decide_eq_true_eq]
        exact h1)]
      have hno : ¬((la.dropWhile (fun c => c = ' ')).head? = some '|') :=
        fun hh => h1 ((dropWhile_space_head_bar la).mpr hh)
      exact iff_of_false (by simp) (fun hr => hno hr.2.2)
  · rw [if_neg (by
      simp only [Bool.and_eq_true, decide_eq_true_eq]
      exact h0)]
    exact iff_of_false (by simp) (fun hr => h0 ⟨hr.1, hr.2.1⟩)

/-- Witness: the amended C4 theorem applied to the fresh parser, header line
`| a |` and lookahead line `| b |` — the table opens although `b` is not a
separator cell. -/
theorem c4_table_open_iff_lookahead_bar_witness :
    ¬(getCurrentBlockType octomarkInit = BLOCK_TABLE) ∧
    ("| b |".toList.contains '\n' = false) ∧
    ((tryParseTable octomarkInit "| a |".toList ("| b |".toList ++ ('\n' :: []))).isSome = true ↔
      (0 < "| a |".toList.length ∧ "| a |".toList.getD 0 nulc = '|' ∧
        ("| b |".toList.dropWhile (fun c => c = ' ')).head? = some '|')) :=
  ⟨by decide, by decide,
    c4_table_open_iff_lookahead_bar octomarkInit "| a |".toList "| b |".toList []
      (by decide) (by decide)⟩

/-! ### Claim C5 — the code drops every other table body row -/

/-- Claim C5 is wrong about the code: the body-row branch of
`try_parse_table` also `return true`, so `process_single_line` reports
`consumed_next = true` for every body row and the driver skips the following
line.  On the four-line table `|h| / |-| / |a| / |b|` the row `|b|` vanishes
from the output; and a body row processed on a parser whose top block is
`Table` yields the skip flag `true`. -/
theorem c5_body_row_sets_skip_and_drops_next :
    octoRun "|h|\n|-|\n|a|\n|b|\n" =
      some ("<table><thead><tr><th>h</th></tr></thead><tbody>\n" ++
        "<tr><td>a</td></tr>\n</tbody></table>\n") ∧
    processSingleLine
      { octomarkInit with
        table_alignments := [TableAlignment.alignNone],
        block_stack := [⟨BLOCK_TABLE, 0⟩] }
      "|a|".toList [] =
      some ({ octomarkInit with
        table_alignments := [TableAlignment.alignNone],
        block_stack := [⟨BLOCK_TABLE, 0⟩] },
        "<tr><td>a</td></tr>\n", true) := by
  exact ⟨by decide, by decide⟩

/-! ### Claim C6 — single `*` emphasis is not implemented -/

/-- Claim C6 is wrong about the code: `parse_inline_content` only recognizes
`**` (strong) and `_` (emphasis); a single `*` falls through to the default
branch and is emitted literally.  So `a*b*c` renders as itself while
`a_b_c` does produce `<em>`, and the repository's own test input `*Italic*`
renders with literal asterisks instead of the `<em>Italic</em>` its test
suite expects. -/
theorem c6_single_star_not_emphasis :
    parseInlineContent false "a*b*c".toList = some "a*b*c" ∧
    parseInlineContent false "a_b_c".toList = some "a<em>b</em>c" ∧
    octoRun "*Italic*" = some "<p>*Italic*</p>\n" := by
  exact ⟨by decide, by decide, by decide⟩

/-! ### Claim C8 — alignment writes overflow the 64-entry arrays -/

set_option maxRecDepth 8000 in
/-- Claim C8 is wrong about the code: the alignment-collection loop of
`try_parse_table` executes `table_alignments[table_column_count++] = align`
with no bound check, and `split_table_row_cells` writes `cells[count++]`
likewise.  On a separator lookahead with 65 cells a table header is
recognized (`consumed_next = true`) and 65 alignments are written — the 65th
write hits index 64 of the 64-entry `table_alignments` array, out of bounds;
a 65-cell row likewise overflows the 64-entry cell arrays. -/
theorem c8_alignment_writes_exceed_64 :
    (processSingleLine octomarkInit "|h|".toList
        (("|" ++ String.join (List.replicate 65 "-|") ++ "\n").toList)).map
      (fun r => (r.1.table_alignments.length, r.2.2)) = some (65, true) ∧
    (splitTableRowCells ("|" ++ String.join (List.replicate 65 "x|")).toList).length = 65 ∧
    64 < 65 := by
  exact ⟨by decide, by decide, by decide⟩

/-! ### Claim C10 — counterexample -/

/-- Claim C10 is false as stated on fragments that end too close to the
opening run: on `"``a"` the closing-run scan stops at `i = 1` while the
content start is `i = 2`, the `size_t` length `i - content_start` underflows
and the C code calls `append_escaped_text` with a near-`2^64` length,
reading far out of bounds — no `<code>…</code>` output is produced (the
model returns `none` for this out-of-bounds execution). -/
theorem c10_unmatched_backticks_oob_counterexample :
    parseInlineContent false (String.toList (String.mk [chBacktick, chBacktick, 'a'])) =
      none := by
  decide

/-! ### Claim C3 — counterexample -/

/-- Claim C3 is false as stated: the link branch of `parse_inline_content`
emits the url bytes with `string_buffer_append_string_n`, raw, never through
the escape map.  On `[x](a"b)` the double quote of the url appears verbatim
inside the `href` attribute instead of as `&quot;`. -/
theorem c3_url_not_escaped_counterexample :
    parseInlineContent false "[x](a\"b)".toList = some "<a href=\"a\"b\">x</a>" ∧
    parseInlineContent false "[x](a\"b)".toList ≠
      some ("<a href=\"" ++ escapeText "a\"b".toList ++ "\">" ++ "x" ++ "</a>") := by
  exact ⟨by decide, by decide⟩

/-! ### Stack-depth preservation lemmas (used by claims C2 and C7) -/

theorem renderAndCloseTopBlock_len (p : OctomarkParser) :
    (renderAndCloseTopBlock p).1.block_stack.length ≤ p.block_stack.length := by
  cases h : p.block_stack <;> simp [renderAndCloseTopBlock, h]

theorem closeParagraphIfOpen_len (p : OctomarkParser) :
    (closeParagraphIfOpen p).1.block_stack.length ≤ p.block_stack.length := by
  unfold closeParagraphIfOpen
  split
  · exact renderAndCloseTopBlock_len p
  · exact le_refl _

theorem closeLeafBlocks_len (p : OctomarkParser) :
    (closeLeafBlocks p).1.block_stack.length ≤ p.block_stack.length := by
  simp only [closeLeafBlocks]
  split
  · exact renderAndCloseTopBlock_len p
  · exact le_refl _

theorem pushBlock_len {p : OctomarkParser} (ty ind : Int)
    (h : p.block_stack.length ≤ MAX_BLOCK_NESTING) :
    (pushBlock p ty ind).block_stack.length ≤ MAX_BLOCK_NESTING := by
  unfold pushBlock
  split
  · simp only [List.length_cons]
    omega
  · exact h

theorem pushBlock_at_cap {p : OctomarkParser} (ty ind : Int)
    (h : p.block_stack.length = MAX_BLOCK_NESTING) :
    pushBlock p ty ind = p := by
  unfold pushBlock
  rw [h]
  simp

theorem closeUntilDLGo_len (fuel : Nat) (p : OctomarkParser) (out : String) :
    (closeUntilDLGo fuel p out).1.block_stack.length ≤ p.block_stack.length := by
  induction fuel generalizing p out with
  | zero => exact le_refl _
  | succ n ih =>
    unfold closeUntilDLGo
    split
    · exact le_trans (ih _ _) (renderAndCloseTopBlock_len p)
    · exact le_refl _

theorem listPopGo_len (fuel : Nat) (p : OctomarkParser) (out : String) (target ci : Int) :
    (listPopGo fuel p out target ci).1.block_stack.length ≤ p.block_stack.length := by
  induction fuel generalizing p out with
  | zero => exact le_refl _
  | succ n ih =>
    unfold listPopGo
    split
    · exact le_trans (ih _ _) (renderAndCloseTopBlock_len p)
    · exact le_refl _

theorem closeContainersGo_len (fuel : Nat) (p : OctomarkParser) (out : String) :
    (closeContainersGo fuel p out).1.block_stack.length ≤ p.block_stack.length := by
  induction fuel generalizing p out with
  | zero => exact le_refl _
  | succ n ih =>
    unfold closeContainersGo
    split
    · exact le_trans (ih _ _) (renderAndCloseTopBlock_len p)
    · exact le_refl _

theorem closeAllGo_len (fuel : Nat) (p : OctomarkParser) (out : String) :
    (closeAllGo fuel p out).1.block_stack.length ≤ p.block_stack.length := by
  induction fuel generalizing p out with
  | zero => exact le_refl _
  | succ n ih =>
    unfold closeAllGo
    split
    · exact le_trans (ih _ _) (renderAndCloseTopBlock_len p)
    · exact le_refl _

theorem closeQuotesGo_len {fuel : Nat} {p : OctomarkParser} {out : String} {cq ql : Nat}
    {r : OctomarkParser × String} (h : closeQuotesGo fuel p out cq ql = some r) :
    r.1.block_stack.length ≤ p.block_stack.length := by
  induction fuel generalizing p out cq with
  | zero =>
    unfold closeQuotesGo at h
    split at h
    · cases h; exact le_refl _
    · cases h
  | succ n ih =>
    unfold closeQuotesGo at h
    split at h
    · cases h; exact le_refl _
    · split at h
      · cases h
      · exact le_trans (ih h) (renderAndCloseTopBlock_len p)

theorem openQuotesGo_len {fuel : Nat} {p : OctomarkParser} {out : String} {ql : Nat}
    {r : OctomarkParser × String} (hp : p.block_stack.length ≤ MAX_BLOCK_NESTING)
    (h : openQuotesGo fuel p out ql = some r) :
    r.1.block_stack.length ≤ MAX_BLOCK_NESTING := by
  induction fuel generalizing p out with
  | zero =>
    unfold openQuotesGo at h
    split at h
    · cases h
    · cases h; exact hp
  | succ n ih =>
    unfold openQuotesGo at h
    split at h
    · exact ih (pushBlock_len _ _ (le_trans (closeParagraphIfOpen_len p) hp)) h
    · cases h; exact hp

theorem processLeafBlockContinuation_len (p : OctomarkParser) (line : List Char) :
    (processLeafBlockContinuation p line).2.1.block_stack.length ≤ p.block_stack.length := by
  rcases hr : renderAndCloseTopBlock p with ⟨pr, orr⟩
  have hlen := renderAndCloseTopBlock_len p
  rw [hr] at hlen
  simp only [processLeafBlockContinuation, hr]
  split
  · exact le_refl _
  · split
    · split
      · exact hlen
      · exact le_refl _
    · split
      · exact hlen
      · exact le_refl _

theorem tryParseFencedCodeBlock_len {p : OctomarkParser} {lc : List Char}
    {p' : OctomarkParser} {o : String} (hp : p.block_stack.length ≤ MAX_BLOCK_NESTING)
    (h : tryParseFencedCodeBlock p lc = some (p', o)) :
    p'.block_stack.length ≤ MAX_BLOCK_NESTING := by
  rcases hc : closeLeafBlocks p with ⟨p1, o1⟩
  have hlen := closeLeafBlocks_len p
  rw [hc] at hlen
  simp only [tryParseFencedCodeBlock, hc] at h
  split at h
  · cases h
    exact pushBlock_len _ _ (le_trans hlen hp)
  · cases h

theorem tryParseMathBlock_len {p : OctomarkParser} {lc : List Char}
    {p' : OctomarkParser} {o : String} (hp : p.block_stack.length ≤ MAX_BLOCK_NESTING)
    (h : tryParseMathBlock p lc = some (p', o)) :
    p'.block_stack.length ≤ MAX_BLOCK_NESTING := by
  rcases hc : closeLeafBlocks p with ⟨p1, o1⟩
  have hlen := closeLeafBlocks_len p
  rw [hc] at hlen
  simp only [tryParseMathBlock, hc] at h
  split at h
  · cases h
    exact pushBlock_len _ _ (le_trans hlen hp)
  · cases h

theorem tryParseHeader_len {p : OctomarkParser} {lc : List Char}
    {p' : OctomarkParser} {o : String} (hp : p.block_stack.length ≤ MAX_BLOCK_NESTING)
    (h : tryParseHeader p lc = some (some (p', o))) :
    p'.block_stack.length ≤ MAX_BLOCK_NESTING := by
  rcases hc : closeLeafBlocks p with ⟨p1, o1⟩
  have hlen := closeLeafBlocks_len p
  rw [hc] at hlen
  simp only [tryParseHeader, hc] at h
  split at h
  · split at h
    · split at h
      · cases h
        exact le_trans hlen hp
      · cases h
    · cases h
  · cases h

theorem tryParseHorizontalRule_len {p : OctomarkParser} {lc : List Char}
    {p' : OctomarkParser} {o : String} (hp : p.block_stack.length ≤ MAX_BLOCK_NESTING)
    (h : tryParseHorizontalRule p lc = some (p', o)) :
    p'.block_stack.length ≤ MAX_BLOCK_NESTING := by
  rcases hc : closeLeafBlocks p with ⟨p1, o1⟩
  have hlen := closeLeafBlocks_len p
  rw [hc] at hlen
  simp only [tryParseHorizontalRule, hc] at h
  split at h
  · cases h
    exact le_trans hlen hp
  · cases h

theorem tryParseDefinitionList_len {p : OctomarkParser} {lc : List Char} {ls : Nat}
    {lc' : List Char} {p' : OctomarkParser} {o : String}
    (hp : p.block_stack.length ≤ MAX_BLOCK_NESTING)
    (h : tryParseDefinitionList p lc ls = some (lc', p', o)) :
    p'.block_stack.length ≤ MAX_BLOCK_NESTING := by
  rcases hc : closeParagraphIfOpen p with ⟨p1, o1⟩
  have hlen := closeParagraphIfOpen_len p
  rw [hc] at hlen
  simp only [tryParseDefinitionList, hc] at h
  split at h
  · cases h
    apply pushBlock_len
    repeat' split
    all_goals
      first
      | exact le_trans hlen hp
      | exact pushBlock_len _ _ (le_trans hlen hp)
      | exact le_trans (closeUntilDLGo_len _ _ _) (le_trans hlen hp)
      | exact le_trans (closeUntilDLGo_len _ _ _) (pushBlock_len _ _ (le_trans hlen hp))
  · cases h

theorem tryParseListItem_len {p : OctomarkParser} {lc : List Char} {ls : Nat}
    {lc' : List Char} {p' : OctomarkParser} {o : String}
    (hp : p.block_stack.length ≤ MAX_BLOCK_NESTING)
    (h : tryParseListItem p lc ls = some (lc', p', o)) :
    p'.block_stack.length ≤ MAX_BLOCK_NESTING := by
  simp only [tryParseListItem] at h
  split at h
  · cases h
    repeat' split
    all_goals
      first
      | exact le_trans (closeLeafBlocks_len _) (le_trans (listPopGo_len _ _ _ _ _) hp)
      | exact pushBlock_len _ _
          (le_trans (closeLeafBlocks_len _) (le_trans (listPopGo_len _ _ _ _ _) hp))
  · cases h

theorem tryParseTable_len {p : OctomarkParser} {lc rest : List Char}
    {p' : OctomarkParser} {o : String} (hp : p.block_stack.length ≤ MAX_BLOCK_NESTING)
    (h : tryParseTable p lc rest = some (some (p', o))) :
    p'.block_stack.length ≤ MAX_BLOCK_NESTING := by
  rcases hc : closeLeafBlocks p with ⟨p1, o1⟩
  have hlen := closeLeafBlocks_len p
  rw [hc] at hlen
  simp only [tryParseTable, hc] at h
  split at h
  · split at h
    · split at h
      · split at h
        · split at h
          · cases h
            exact pushBlock_len _ _ (le_trans hlen hp)
          · cases h
        · cases h
      · cases h
    · split at h
      · cases h
        exact hp
      · cases h
  · cases h

theorem tryParseDefinitionTerm_len {p : OctomarkParser} {lc rest : List Char}
    {p' : OctomarkParser} {o : String} (hp : p.block_stack.length ≤ MAX_BLOCK_NESTING)
    (h : tryParseDefinitionTerm p lc rest = some (some (p', o))) :
    p'.block_stack.length ≤ MAX_BLOCK_NESTING := by
  rcases hc : closeLeafBlocks p with ⟨p1, o1⟩
  have hlen := closeLeafBlocks_len p
  rw [hc] at hlen
  simp only [tryParseDefinitionTerm, hc] at h
  split at h
  · split at h
    · split at h
      · cases h
        split
        · exact pushBlock_len _ _ (le_trans hlen hp)
        · exact le_trans hlen hp
      · cases h
    · cases h
  · cases h

theorem processParagraph_len {p : OctomarkParser} {lc : List Char} {isDL isList : Bool}
    {p' : OctomarkParser} {o : String} (hp : p.block_stack.length ≤ MAX_BLOCK_NESTING)
    (h : processParagraph p lc isDL isList = some (p', o)) :
    p'.block_stack.length ≤ MAX_BLOCK_NESTING := by
  simp only [processParagraph] at h
  split at h
  · cases h
    split
    · exact pushBlock_len _ _ hp
    · exact hp
  · cases h

theorem dlStep_len {p : OctomarkParser} (lc : List Char) (ls : Nat) (o : String)
    (hp : p.block_stack.length ≤ MAX_BLOCK_NESTING) :
    (dlStep p lc ls o).2.1.block_stack.length ≤ MAX_BLOCK_NESTING := by
  unfold dlStep
  split
  · rename_i lc' p' o' heq
    exact tryParseDefinitionList_len hp heq
  · exact hp

theorem liStep_len {p : OctomarkParser} (lc : List Char) (ls : Nat) (o : String)
    (hp : p.block_stack.length ≤ MAX_BLOCK_NESTING) :
    (liStep p lc ls o).2.1.block_stack.length ≤ MAX_BLOCK_NESTING := by
  unfold liStep
  split
  · rename_i lc' p' o' heq
    exact tryParseListItem_len hp heq
  · exact hp

theorem classifyRest_len {p : OctomarkParser} {lc rest : List Char} {isDL isList : Bool}
    {p' : OctomarkParser} {o : String} {sk : Bool}
    (hp : p.block_stack.length ≤ MAX_BLOCK_NESTING)
    (h : classifyRest p lc rest isDL isList = some (p', o, sk)) :
    p'.block_stack.length ≤ MAX_BLOCK_NESTING := by
  unfold classifyRest at h
  split at h
  · cases h
    rename_i heq
    exact tryParseFencedCodeBlock_len hp heq
  · split at h
    · cases h
      rename_i heq
      exact tryParseMathBlock_len hp heq
    · split at h
      · cases h
        rename_i heq
        exact tryParseHeader_len hp heq
      · cases h
      · split at h
        · cases h
          rename_i heq
          exact tryParseHorizontalRule_len hp heq
        · split at h
          · cases h
            rename_i heq
            exact tryParseTable_len hp heq
          · cases h
          · split at h
            · cases h
              rename_i heq
              exact tryParseDefinitionTerm_len hp heq
            · cases h
            · split at h
              · cases h
                rename_i heq
                exact processParagraph_len hp heq
              · cases h

theorem processSingleLine_len {p : OctomarkParser} {line rest : List Char}
    {p' : OctomarkParser} {o : String} {sk : Bool}
    (hp : p.block_stack.length ≤ MAX_BLOCK_NESTING)
    (h : processSingleLine p line rest = some (p', o, sk)) :
    p'.block_stack.length ≤ MAX_BLOCK_NESTING := by
  rcases hlc : processLeafBlockContinuation p line with ⟨handled, pA, oA⟩
  have hlenA := processLeafBlockContinuation_len p line
  rw [hlc] at hlenA
  simp only [processSingleLine, hlc] at h
  split at h
  · cases h
    exact le_trans hlenA hp
  · split at h
    · cases h
      exact le_trans (closeContainersGo_len _ _ _) (le_trans (closeLeafBlocks_len _) hp)
    · rcases Option.bind_eq_some.mp h with ⟨⟨p1, o1⟩, hq, h⟩
      have hb1 : p1.block_stack.length ≤ MAX_BLOCK_NESTING :=
        le_trans (closeQuotesGo_len hq) hp
      rcases Option.bind_eq_some.mp h with ⟨⟨p2, o2⟩, ho, h⟩
      have hb2 : p2.block_stack.length ≤ MAX_BLOCK_NESTING := openQuotesGo_len hb1 ho
      split at h
      · cases h
        rename_i heq
        exact classifyRest_len (liStep_len _ _ _ (dlStep_len _ _ _ hb2)) heq
      · cases h

theorem feedGo_len {data : List Char} {fuel pos : Nat} {p : OctomarkParser} {out : String}
    {r : OctomarkParser × String × Nat}
    (hp : p.block_stack.length ≤ MAX_BLOCK_NESTING)
    (h : feedGo data fuel pos p out = some r) :
    r.1.block_stack.length ≤ MAX_BLOCK_NESTING := by
  induction fuel generalizing pos p out with
  | zero =>
    unfold feedGo at h
    split at h
    · cases h
    · cases h; exact hp
  | succ n ih =>
    unfold feedGo at h
    split at h
    · rcases Option.bind_eq_some.mp h with ⟨⟨p1, o1, skip⟩, hps, h⟩
      exact ih (processSingleLine_len hp hps) h
    · cases h; exact hp

theorem octomarkFeed_len {p : OctomarkParser} {chunk : List Char}
    {r : OctomarkParser × String}
    (hp : p.block_stack.length ≤ MAX_BLOCK_NESTING)
    (h : octomarkFeed p chunk = some r) :
    r.1.block_stack.length ≤ MAX_BLOCK_NESTING := by
  simp only [octomarkFeed] at h
  rcases Option.map_eq_some'.mp h with ⟨⟨p1, o1, pos⟩, hf, heq⟩
  cases heq
  exact feedGo_len (p := { p with pending_buffer := p.pending_buffer ++ chunk }) hp hf

theorem octomarkFinish_len {p : OctomarkParser} {r : OctomarkParser × String}
    (hp : p.block_stack.length ≤ MAX_BLOCK_NESTING)
    (h : octomarkFinish p = some r) :
    r.1.block_stack.length ≤ MAX_BLOCK_NESTING := by
  unfold octomarkFinish at h
  split at h
  · split at h
    · cases h
      rename_i p1 o1 sk heq
      exact le_trans (closeAllGo_len _ _ _) (processSingleLine_len hp heq)
    · cases h
  · cases h
    exact le_trans (closeAllGo_len _ _ _) hp

/-! ### Claim C7 — the depth bound -/

/-- Claim C7 holds: `push_block` is a no-op at depth 32 and every driver
operation preserves the bound `stack_depth ≤ 32`: pushes are guarded, pops
only shrink, and `octomark_feed` / `octomark_finish` are compositions of
such operations. -/
theorem c7_stack_depth_bounded :
    (∀ (p : OctomarkParser) (ty ind : Int),
      p.block_stack.length ≤ MAX_BLOCK_NESTING →
      (pushBlock p ty ind).block_stack.length ≤ MAX_BLOCK_NESTING) ∧
    (∀ (p : OctomarkParser) (ty ind : Int),
      p.block_stack.length = MAX_BLOCK_NESTING → pushBlock p ty ind = p) ∧
    (∀ (p : OctomarkParser) (chunk : List Char) (r : OctomarkParser × String),
      p.block_stack.length ≤ MAX_BLOCK_NESTING → octomarkFeed p chunk = some r →
      r.1.block_stack.length ≤ MAX_BLOCK_NESTING) ∧
    (∀ (p : OctomarkParser) (r : OctomarkParser × String),
      p.block_stack.length ≤ MAX_BLOCK_NESTING → octomarkFinish p = some r →
      r.1.block_stack.length ≤ MAX_BLOCK_NESTING) :=
  ⟨fun _ ty ind hp => pushBlock_len ty ind hp,
   fun _ ty ind hp => pushBlock_at_cap ty ind hp,
   fun _ _ _ hp h => octomarkFeed_len hp h,
   fun _ _ hp h => octomarkFinish_len hp h⟩

/-- Witness for claim C7's theorem: the bound holds across a concrete feed
and at a concrete capped push. -/
theorem c7_stack_depth_bounded_witness :
    (octomarkInit.block_stack.length ≤ MAX_BLOCK_NESTING ∧
      octomarkFeed octomarkInit "# x\n".toList = some (octomarkInit, "<h1>x</h1>\n")) ∧
    (octomarkInit, "<h1>x</h1>\n").1.block_stack.length ≤ MAX_BLOCK_NESTING := by
  refine ⟨⟨by decide, by decide⟩, ?_⟩
  exact c7_stack_depth_bounded.2.2.1 octomarkInit "# x\n".toList
    (octomarkInit, "<h1>x</h1>\n") (by decide) (by decide)

/-! ### Claim C2 — the blockquote-opening loop does not terminate -/

/-- Claim C2 is wrong about the code: the loop
`while (stack_depth < quote_level)` of `process_single_line` never
terminates once the quote level exceeds 32, because `push_block` silently
refuses to grow the stack past `MAX_BLOCK_NESTING` and the loop condition
never becomes false — the C program loops forever appending
`<blockquote>`.  No amount of fuel makes the modelled loop finish on a line
of 33 `>` markers, and the whole pipeline on that line yields no result. -/
theorem c2_quote_open_loop_diverges :
    (∀ (fuel : Nat) (p : OctomarkParser) (out : String),
      p.block_stack.length ≤ MAX_BLOCK_NESTING →
      openQuotesGo fuel p out 33 = none) ∧
    processSingleLine octomarkInit (List.replicate 33 '>') [] = none ∧
    octoRun (String.mk (List.replicate 33 '>') ++ "\n") = none := by
  refine ⟨?_, by decide, by decide⟩
  intro fuel
  induction fuel with
  | zero =>
    intro p out hp
    unfold openQuotesGo
    have hlt : p.block_stack.length < 33 := by
      simp only [MAX_BLOCK_NESTING] at hp
      omega
    simp [hlt]
  | succ n ih =>
    intro p out hp
    unfold openQuotesGo
    have hlt : p.block_stack.length < 33 := by
      simp only [MAX_BLOCK_NESTING] at hp
      omega
    simp only [hlt, if_pos]
    exact ih _ _ (pushBlock_len _ _ (le_trans (closeParagraphIfOpen_len p) hp))

/-- Witness for claim C2's theorem: the loop yields no result at a concrete
fuel on the empty initial stack. -/
theorem c2_quote_open_loop_diverges_witness :
    octomarkInit.block_stack.length ≤ MAX_BLOCK_NESTING ∧
    openQuotesGo 5 octomarkInit "" 33 = none := by
  exact ⟨by decide, c2_quote_open_loop_diverges.1 5 octomarkInit "" (by decide)⟩

/-! ### Claims C9 and C1 — the streaming driver -/

/-- A feed whose accumulated buffer holds no newline processes no line: it
only appends the chunk to the leftover buffer and emits nothing. -/
theorem octomarkFeed_no_newline {p : OctomarkParser} {chunk : List Char}
    (hp : p.pending_buffer.contains '\n' = false)
    (hc : chunk.contains '\n' = false) :
    octomarkFeed p chunk =
      some ({ p with pending_buffer := p.pending_buffer ++ chunk }, "") := by
  have hdata : ((p.pending_buffer ++ chunk).drop 0).contains '\n' = false := by
    rw [List.drop_zero, contains_append_eq, hp, hc]
    rfl
  simp only [octomarkFeed, feedGo, hdata]
  rfl

/-- Claim C9 holds: feeding a zero-length chunk from any state whose
leftover holds no newline (the invariant of every reachable state) returns
the state unchanged — block stack, leftover, table alignments — and emits
nothing. -/
theorem c9_empty_feed_identity (p : OctomarkParser)
    (h : p.pending_buffer.contains '\n' = false) :
    octomarkFeed p [] = some (p, "") := by
  have := @octomarkFeed_no_newline p [] h (by rfl)
  simpa using this

/-- Witness for claim C9's theorem at a concrete reachable state. -/
theorem c9_empty_feed_identity_witness :
    ({ octomarkInit with pending_buffer := "| tail".toList } :
        OctomarkParser).pending_buffer.contains '\n' = false ∧
    octomarkFeed { octomarkInit with pending_buffer := "| tail".toList } [] =
      some ({ octomarkInit with pending_buffer := "| tail".toList }, "") := by
  exact ⟨by decide, c9_empty_feed_identity _ (by decide)⟩

/-- Feeding is a function of the concatenation of leftover and chunk: states
that agree except for how the same bytes are split between the leftover and
the incoming chunk feed identically. -/
theorem octomarkFeed_pending_shift (p : OctomarkParser) (a b : List Char) :
    octomarkFeed { p with pending_buffer := p.pending_buffer ++ a } b =
      octomarkFeed p (a ++ b) := by
  simp only [octomarkFeed, List.append_assoc]

/-- The cons equation of `feedMany`, for targeted rewriting. -/
theorem feedMany_cons (p : OctomarkParser) (c : List Char) (cs : List (List Char)) :
    feedMany p (c :: cs) =
      match octomarkFeed p c with
      | none => none
      | some (p1, o1) =>
        match feedMany p1 cs with
        | none => none
        | some (p2, o2) => some (p2, o1 ++ o2) := rfl

/-- A newline-free chunk fed from a newline-free state is a pure transfer
into the leftover buffer, also through `feedMany`. -/
theorem feedMany_cons_no_newline (p : OctomarkParser) (c : List Char)
    (cs : List (List Char)) (hp : p.pending_buffer.contains '\n' = false)
    (hc : c.contains '\n' = false) :
    feedMany p (c :: cs) =
      feedMany { p with pending_buffer := p.pending_buffer ++ c } cs := by
  rw [feedMany_cons, octomarkFeed_no_newline hp hc]
  simp only [String.empty_append]
  cases feedMany { p with pending_buffer := p.pending_buffer ++ c } cs with
  | none => rfl
  | some y => rfl

/-- The generalized chunking lemma: from any state whose leftover holds no
newline, feeding a list of chunks all of whose non-final members are
newline-free and finishing is the same as feeding their concatenation in a
single call. -/
theorem octoRunFrom_flatten {p : OctomarkParser}
    (hp : p.pending_buffer.contains '\n' = false) :
    ∀ (chunks : List (List Char)),
      (∀ c ∈ chunks.dropLast, c.contains '\n' = false) →
      octoRunFrom p chunks = octoRunFrom p [chunks.flatten] := by
  intro chunks
  induction chunks generalizing p with
  | nil =>
    intro _
    have he : ({ p with pending_buffer := p.pending_buffer ++ ([] : List Char) } :
        OctomarkParser) = p := by
      simp
    unfold octoRunFrom
    rw [List.flatten_nil, feedMany_cons_no_newline p [] [] hp (by rfl), he]
  | cons c cs ih =>
    intro hall
    cases cs with
    | nil =>
      simp only [List.flatten_cons, List.flatten_nil, List.append_nil]
    | cons d ds =>
      have hc : c.contains '\n' = false := hall c (by simp [List.dropLast_cons₂])
      have hall' : ∀ x ∈ (d :: ds).dropLast, x.contains '\n' = false := by
        intro x hx
        exact hall x (by simp [List.dropLast_cons₂, hx])
      have hp1 : ({ p with pending_buffer := p.pending_buffer ++ c } :
          OctomarkParser).pending_buffer.contains '\n' = false := by
        simp only [contains_append_eq, hp, hc]
        rfl
      have step : octoRunFrom p (c :: d :: ds) =
          octoRunFrom { p with pending_buffer := p.pending_buffer ++ c } (d :: ds) := by
        unfold octoRunFrom
        rw [feedMany_cons_no_newline p c (d :: ds) hp hc]
      have shift : octoRunFrom { p with pending_buffer := p.pending_buffer ++ c }
          [(d :: ds).flatten] = octoRunFrom p [c ++ (d :: ds).flatten] := by
        unfold octoRunFrom
        rw [feedMany_cons, feedMany_cons, octomarkFeed_pending_shift]
      rw [step, ih hp1 hall', shift]
      simp [List.flatten_cons]

/-- Claim C1, amended: chunking invariance holds for every partition in
which only the final chunk contains newline bytes (all complete lines are
then segmented in a single feed call); in general it fails, because a feed
call eagerly classifies a complete line even when the following line —
its lookahead — has not arrived yet. -/
theorem c1_chunking_invariance_lines_in_last_chunk
    (chunks : List (List Char))
    (h : ∀ c ∈ chunks.dropLast, c.contains '\n' = false) :
    octoRunChunksL chunks = octoRunL chunks.flatten := by
  exact octoRunFrom_flatten (by rfl) chunks h

/-- Witness for the amended claim C1: a chunk boundary in the middle of the
table header line (all newlines in the final chunk) preserves the output. -/
theorem c1_chunking_invariance_lines_in_last_chunk_witness :
    (∀ c ∈ ([("| a").toList, (" |\n|---|\n").toList] :
        List (List Char)).dropLast, c.contains '\n' = false) ∧
    octoRunChunksL [("| a").toList, (" |\n|---|\n").toList] =
      octoRunL ([("| a").toList, (" |\n|---|\n").toList] : List (List Char)).flatten := by
  refine ⟨by decide, ?_⟩
  exact c1_chunking_invariance_lines_in_last_chunk _ (by decide)

/-! ### Scan characterizations for the inline tokenizer (claims C3, C10) -/

theorem countWhile_nil (p : Char → Bool) : countWhile p [] = 0 := rfl

theorem countWhile_eq_zero_head {p : Char → Bool} {l : List Char}
    (h : ∀ x ∈ l, p x = false) : countWhile p l = 0 := by
  cases l with
  | nil => rfl
  | cons a r => exact countWhile_cons_false _ (h a (by simp))

theorem brScan_zero (l : List Char) : brScan l 0 = 0 := by
  cases l <;> simp [brScan]

theorem brScan_no_brackets (text r : List Char)
    (h : ∀ x ∈ text, x ≠ '[' ∧ x ≠ ']') :
    brScan (text ++ ']' :: r) 1 = text.length + 1 := by
  induction text with
  | nil => simp [brScan, brScan_zero]
  | cons x t ih =>
    have hx := h x (by simp)
    have iht := ih (fun y hy => h y (by simp [hy]))
    simp only [List.cons_append, brScan, List.length_cons]
    rw [if_neg one_ne_zero]
    simp only [hx.1, hx.2, if_false]
    rw [show t.append (']' :: r) = t ++ ']' :: r from rfl, iht]
    omega

theorem inlineGo_at_end (eh : Bool) (fuel : Nat) (t : List Char) (i0 : Nat)
    (h : t.length ≤ i0) : inlineGo eh fuel t i0 = some "" := by
  cases fuel with
  | zero => unfold inlineGo; rw [if_pos h]
  | succ n => unfold inlineGo; rw [if_pos h]

theorem btClose_no_run (t : List Char) (bc : Nat)
    (hrun : ∀ j, 0 < j → isRunAt t j bc = false) (hbct : bc ≤ t.length) :
    ∀ (fuel i : Nat), i ≤ t.length - bc → t.length - bc ≤ i + fuel →
      btClose t bc fuel i = t.length - bc := by
  intro fuel
  induction fuel with
  | zero =>
    intro i h1 h2
    unfold btClose
    omega
  | succ n ih =>
    intro i h1 h2
    unfold btClose
    split
    · rw [hrun (i + 1) (by omega), if_neg]
      · exact ih (i + 1) (by omega) (by omega)
      · simp
    · omega

theorem isRunAt_no_backtick {bc : Nat} {rest : List Char}
    (hbc : 1 ≤ bc) (hnb : rest.contains chBacktick = false) :
    ∀ j, 0 < j → isRunAt (List.replicate bc chBacktick ++ rest) j bc = false := by
  intro j hj
  unfold isRunAt
  rw [beq_eq_false_iff_ne]
  intro heq
  rw [List.drop_append_eq_append_drop, List.take_append_eq_append_take] at heq
  simp only [List.drop_replicate, List.take_replicate, List.length_replicate] at heq
  have hmin : min bc (bc - j) = bc - j := by omega
  rw [hmin] at heq
  have hkpos : 1 ≤ bc - (bc - j) := by omega
  have hsplit : List.replicate bc chBacktick =
      List.replicate (bc - j) chBacktick ++ List.replicate (bc - (bc - j)) chBacktick := by
    rw [← List.replicate_add]
    congr 1
    omega
  rw [hsplit] at heq
  have heq2 : (rest.drop (j - bc)).take (bc - (bc - j)) =
      List.replicate (bc - (bc - j)) chBacktick := by
    exact List.append_cancel_left heq
  cases hR : rest.drop (j - bc) with
  | nil =>
    rw [hR] at heq2
    simp only [List.take_nil] at heq2
    have := congrArg List.length heq2
    simp at this
    omega
  | cons x xs =>
    rw [hR] at heq2
    obtain ⟨k, hk⟩ : ∃ k, bc - (bc - j) = k + 1 := ⟨bc - (bc - j) - 1, by omega⟩
    rw [hk, List.take_succ_cons, List.replicate_succ] at heq2
    have hx : x = chBacktick := (List.cons.injEq _ _ _ _ ▸ heq2).1
    have hmem : x ∈ rest := List.mem_of_mem_drop (by rw [hR]; simp)
    exact forall_of_not_contains hnb x hmem hx

theorem listStr_nil : listStr [] = "" := rfl

/-! ### Claim C10 — amended theorem -/

/-- Claim C10, amended: a backtick run of length `N` with no backtick after
it still opens and closes a `<code>` span, provided at least `N` bytes
follow the run; the emitted content is the remainder of the fragment minus
its final `N` bytes, entity-escaped.  (When fewer than `N` bytes follow,
the `size_t` length computation underflows and the C code reads out of
bounds — the counterexample theorem.) -/
theorem c10_unmatched_backticks_code_span (eh : Bool) (f b : Nat) (rest : List Char)
    (hnb : rest.contains chBacktick = false) (hlen : b + 1 ≤ rest.length) :
    inlineGo eh (f + 1) (List.replicate (b + 1) chBacktick ++ rest) 0 =
      some ("<code>" ++ escapeText (rest.take (rest.length - (b + 1))) ++ "</code>") := by
  have hfraglen : (List.replicate (b + 1) chBacktick ++ rest).length =
      (b + 1) + rest.length := by simp
  have hnotend : ¬((List.replicate (b + 1) chBacktick ++ rest).length ≤ 0) := by
    rw [hfraglen]; omega
  have hsk : countWhile (fun c => !(isSpecialChar c))
      (List.replicate (b + 1) chBacktick ++ rest) = 0 := by
    rw [List.replicate_succ, List.cons_append]
    exact countWhile_cons_false _ (by decide)
  have hc0 : (List.replicate (b + 1) chBacktick ++ rest).getD 0 nulc = chBacktick := by
    rw [List.replicate_succ, List.cons_append, List.getD_cons_zero]
  have hdrop1 : (List.replicate (b + 1) chBacktick ++ rest).drop 1 =
      List.replicate b chBacktick ++ rest := by
    simp [List.replicate_succ]
  have hcw : countWhile (fun x => x = chBacktick) (List.replicate b chBacktick ++ rest) =
      b := by
    rw [countWhile_all_append (fun x hx => by rw [List.eq_of_mem_replicate hx]; simp)]
    rw [countWhile_eq_zero_head (fun x hx => by
      have := forall_of_not_contains hnb x hx
      simp [this])]
    simp
  have hbceq : 1 + countWhile (fun x => x = chBacktick)
      ((List.replicate (b + 1) chBacktick ++ rest).drop 1) = b + 1 := by
    rw [hdrop1, hcw]
    omega
  have hclose : btClose (List.replicate (b + 1) chBacktick ++ rest) (b + 1)
      ((List.replicate (b + 1) chBacktick ++ rest).length + 1) 0 = rest.length := by
    have h1 := btClose_no_run (List.replicate (b + 1) chBacktick ++ rest) (b + 1)
      (isRunAt_no_backtick (by omega) hnb) (by rw [hfraglen]; omega)
      ((List.replicate (b + 1) chBacktick ++ rest).length + 1) 0
      (by rw [hfraglen]; omega) (by rw [hfraglen]; omega)
    have h2 : (List.replicate (b + 1) chBacktick ++ rest).length - (b + 1) =
        rest.length := by
      rw [hfraglen]; omega
    exact h1.trans h2
  have hdropbc : (List.replicate (b + 1) chBacktick ++ rest).drop (b + 1) = rest := by
    simp [List.drop_append_eq_append_drop, List.drop_replicate]
  simp only [inlineGo]
  rw [if_neg hnotend]
  rw [List.drop_zero, hsk]
  simp only [Nat.add_zero, Nat.zero_add, List.take_zero, listStr_nil]
  rw [if_neg hnotend, hc0]
  have d1 : ¬(chBacktick = '<') := by decide
  have d2 : ¬(chBacktick = '\\') := by decide
  have d3 : ¬(chBacktick = '_') := by decide
  have d4 : ¬(chBacktick = '*') := by decide
  have d5 : (chBacktick = chBacktick) := rfl
  simp only [d1, d2, d3, d4, d5, decide_False, decide_True, Bool.false_and,
    Bool.and_false, Bool.false_eq_true, if_false, Bool.true_and, if_true]
  rw [hbceq, hclose, hdropbc, if_neg (by omega)]
  rw [inlineGo_at_end eh f _ _ (by rw [hfraglen]; omega)]
  simp [String.append_empty, String.empty_append]

/-- Witness for the amended claim C10: a lone backtick followed by `ab`
keeps one escaped byte and closes the span. -/
theorem c10_unmatched_backticks_code_span_witness :
    ("ab".toList : List Char).contains chBacktick = false ∧
    0 + 1 ≤ "ab".toList.length ∧
    inlineGo false (0 + 1) (List.replicate (0 + 1) chBacktick ++ "ab".toList) 0 =
      some ("<code>" ++ escapeText ("ab".toList.take ("ab".toList.length - (0 + 1))) ++
        "</code>") := by
  exact ⟨by decide, by decide,
    c10_unmatched_backticks_code_span false 0 0 "ab".toList (by decide) (by decide)⟩

/-! ### Claim C3 — amended theorem -/

/-- Claim C3, amended: the link and image branches emit the url — and, for
images, the alt text — verbatim, with no pass through the HTML escape map:
`[text](url)` yields `<a href="url">` + inline(text) + `</a>` and
`![alt](url)` yields `<img src="url" alt="alt">`, the url and alt bytes
appearing raw inside the attribute values. -/
theorem c3_link_image_emit_raw_url (eh : Bool) (f : Nat) (text url : List Char)
    (h1 : text.contains '[' = false) (h2 : text.contains ']' = false)
    (h3 : url.contains ')' = false) (h4 : url.contains ' ' = false) :
    (inlineGo eh (f + 1) ('[' :: (text ++ (']' :: ('(' :: (url ++ [')']))))) 0 =
      (inlineGo eh f text 0).map (fun inner =>
        "<a href=\"" ++ listStr url ++ "\">" ++ inner ++ "</a>")) ∧
    (inlineGo eh (f + 1) ('!' :: ('[' :: (text ++ (']' :: ('(' :: (url ++ [')'])))))) 0 =
      some ("<img src=\"" ++ listStr url ++ "\" alt=\"" ++ listStr text ++ "\">")) := by
  have htext : ∀ x ∈ text, x ≠ '[' ∧ x ≠ ']' := fun x hx =>
    ⟨forall_of_not_contains h1 x hx, forall_of_not_contains h2 x hx⟩
  have hurlp : ∀ x ∈ url, (!(x = ')') && !(x = ' ')) = true := by
    intro x hx
    have c1 := forall_of_not_contains h3 x hx
    have c2 := forall_of_not_contains h4 x hx
    simp [c1, c2]
  have hbr : brScan (text ++ (']' :: ('(' :: (url ++ [')'])))) 1 = text.length + 1 :=
    brScan_no_brackets text ('(' :: (url ++ [')'])) htext
  have hcwu : countWhile (fun x => !(x = ')') && !(x = ' ')) (url ++ [')']) =
      url.length := by
    rw [countWhile_all_append hurlp, countWhile_cons_false _ (by decide)]
    omega
  constructor
  · simp only [inlineGo]
    rw [if_neg (by simp)]
    rw [List.drop_zero, countWhile_cons_false _ (by decide)]
    simp only [Nat.add_zero, List.take_zero, listStr_nil]
    rw [if_neg (by simp)]
    have dz1 : ¬('[' = '<') := by decide
    have dz2 : ¬('[' = '\\') := by decide
    have dz3 : ¬('[' = '_') := by decide
    have dz4 : ¬('[' = '*') := by decide
    have dz5 : ¬('[' = chBacktick) := by decide
    have dz6 : ¬('[' = '~') := by decide
    have dz7 : ¬('[' = '!') := by decide
    simp only [List.getD_cons_zero, dz1, dz2, dz3, dz4, dz5, dz6, dz7,
      decide_False, decide_True, Bool.false_and, Bool.and_false,
      Bool.false_eq_true, if_false, Bool.false_or, if_true, Bool.true_and]
    rw [if_pos (by simp)]
    simp only [Nat.zero_add, List.drop_succ_cons, List.drop_zero]
    rw [hbr]
    have hdia : List.drop (1 + (text.length + 1))
        ('[' :: (text ++ (']' :: ('(' :: (url ++ [')']))))) = '(' :: (url ++ [')']) := by
      rw [show 1 + (text.length + 1) = text.length + 1 + 1 from by omega,
        List.drop_succ_cons, List.drop_append_eq_append_drop,
        List.drop_eq_nil_of_le (by omega),
        show text.length + 1 - text.length = 1 from by omega,
        List.drop_succ_cons, List.drop_zero, List.nil_append]
    have hfl : ('[' :: (text ++ (']' :: ('(' :: (url ++ [')']))))).length =
        text.length + url.length + 4 := by
      simp
      omega
    have hgd : ('[' :: (text ++ (']' :: ('(' :: (url ++ [')']))))).getD
        (1 + (text.length + 1)) nulc = '(' := by
      rw [getD_eq_headD_drop, hdia]
      rfl
    rw [if_pos (by
      simp only [hgd, decide_True, Bool.and_true]
      simp only [hfl]
      rw [decide_eq_true]
      omega)]
    have hdus : List.drop (1 + (text.length + 1)) (text ++ (']' :: ('(' :: (url ++ [')'])))) =
        url ++ [')'] := by
      rw [List.drop_append_eq_append_drop, List.drop_eq_nil_of_le (by omega),
        show 1 + (text.length + 1) - text.length = 1 + 1 from by omega,
        List.drop_succ_cons, List.drop_succ_cons, List.drop_zero, List.nil_append]
    rw [hdus, hcwu]
    have hdfin : List.drop (1 + (text.length + 1) + 1 + url.length)
        ('[' :: (text ++ (']' :: ('(' :: (url ++ [')']))))) = [')'] := by
      rw [show 1 + (text.length + 1) + 1 + url.length = (text.length + 2 + url.length) + 1
          from by omega,
        List.drop_succ_cons, List.drop_append_eq_append_drop,
        List.drop_eq_nil_of_le (by omega),
        show text.length + 2 + url.length - text.length = url.length + 1 + 1 from by omega,
        List.drop_succ_cons, List.drop_succ_cons, List.drop_append_eq_append_drop,
        List.drop_eq_nil_of_le (le_refl _), Nat.sub_self, List.drop_zero]
      simp
    rw [hdfin, countWhile_cons_false _ (by decide)]
    rw [show 1 + (text.length + 1) - 1 - 1 = text.length from by omega, List.take_left]
    rw [inlineGo_at_end eh f ('[' :: (text ++ (']' :: ('(' :: (url ++ [')'])))))
      (1 + (text.length + 1) + 1 + url.length + 0 + 1) (by rw [hfl]; omega)]
    cases hx : inlineGo eh f text 0 with
    | none => rfl
    | some a => simp [String.append_empty, String.empty_append]
  · simp only [inlineGo]
    rw [if_neg (by simp)]
    rw [List.drop_zero, countWhile_cons_false _ (by decide)]
    simp only [Nat.add_zero, List.take_zero, listStr_nil]
    rw [if_neg (by simp)]
    have ez1 : ¬('!' = '<') := by decide
    have ez2 : ¬('!' = '\\') := by decide
    have ez3 : ¬('!' = '_') := by decide
    have ez4 : ¬('!' = '*') := by decide
    have ez5 : ¬('!' = chBacktick) := by decide
    have ez6 : ¬('!' = '~') := by decide
    simp only [List.getD_cons_zero, ez1, ez2, ez3, ez4, ez5, ez6,
      decide_False, decide_True, Bool.false_and, Bool.and_false,
      Bool.false_eq_true, if_false, Bool.true_or, if_true, Bool.true_and]
    rw [if_pos (by simp)]
    have hdrop2 : List.drop (0 + 1 + 1)
        ('!' :: ('[' :: (text ++ (']' :: ('(' :: (url ++ [')'])))))) =
        text ++ (']' :: ('(' :: (url ++ [')']))) := rfl
    rw [hdrop2, hbr]
    have hfl2 : ('!' :: ('[' :: (text ++ (']' :: ('(' :: (url ++ [')'])))))).length =
        text.length + url.length + 5 := by
      simp
      omega
    have hdia2 : List.drop (0 + 1 + 1 + (text.length + 1))
        ('!' :: ('[' :: (text ++ (']' :: ('(' :: (url ++ [')'])))))) =
        '(' :: (url ++ [')']) := by
      rw [show 0 + 1 + 1 + (text.length + 1) = text.length + 1 + 1 + 1 from by omega,
        List.drop_succ_cons, List.drop_succ_cons, List.drop_append_eq_append_drop,
        List.drop_eq_nil_of_le (by omega),
        show text.length + 1 - text.length = 1 from by omega,
        List.drop_succ_cons, List.drop_zero, List.nil_append]
    have hgd2 : ('!' :: ('[' :: (text ++ (']' :: ('(' :: (url ++ [')'])))))).getD
        (0 + 1 + 1 + (text.length + 1)) nulc = '(' := by
      rw [getD_eq_headD_drop, hdia2]
      rfl
    rw [if_pos (by
      simp only [hgd2, decide_True, Bool.and_true]
      simp only [hfl2]
      rw [decide_eq_true]
      omega)]
    have hdus2 : List.drop (0 + 1 + 1 + (text.length + 1) + 1)
        ('!' :: ('[' :: (text ++ (']' :: ('(' :: (url ++ [')'])))))) = url ++ [')'] := by
      rw [show 0 + 1 + 1 + (text.length + 1) + 1 = text.length + 2 + 1 + 1 from by omega,
        List.drop_succ_cons, List.drop_succ_cons, List.drop_append_eq_append_drop,
        List.drop_eq_nil_of_le (by omega),
        show text.length + 2 - text.length = 1 + 1 from by omega,
        List.drop_succ_cons, List.drop_succ_cons, List.drop_zero, List.nil_append]
    rw [hdus2, hcwu]
    have hdfin2 : List.drop (0 + 1 + 1 + (text.length + 1) + 1 + url.length)
        ('!' :: ('[' :: (text ++ (']' :: ('(' :: (url ++ [')'])))))) = [')'] := by
      rw [show 0 + 1 + 1 + (text.length + 1) + 1 + url.length =
          (text.length + 2 + url.length + 1) + 1 from by omega,
        List.drop_succ_cons, List.drop_succ_cons, List.drop_append_eq_append_drop,
        List.drop_eq_nil_of_le (by omega),
        show text.length + 2 + url.length - text.length = url.length + 1 + 1 from by omega,
        List.drop_succ_cons, List.drop_succ_cons, List.drop_append_eq_append_drop,
        List.drop_eq_nil_of_le (le_refl _), Nat.sub_self, List.drop_zero]
      simp
    rw [hdfin2, countWhile_cons_false _ (by decide)]
    rw [show 0 + 1 + 1 + (text.length + 1) - (0 + 1 + 1) - 1 = text.length from by omega,
      List.take_left, List.take_left]
    rw [inlineGo_at_end eh f ('!' :: ('[' :: (text ++ (']' :: ('(' :: (url ++ [')']))))))
      (0 + 1 + 1 + (text.length + 1) + 1 + url.length + 0 + 1) (by rw [hfl2]; omega)]
    simp [String.append_empty, String.empty_append]

/-- Witness: the C3 theorem applied to `text = x` and a url containing a raw
double quote — the quote lands unescaped inside the emitted attribute. -/
theorem c3_link_image_emit_raw_url_witness :
    ("x".toList.contains '[' = false) ∧
    (['a', chQuote, 'b'].contains ')' = false) ∧
    ((inlineGo false (2 + 1) ('[' :: ("x".toList ++ (']' :: ('(' ::
          (['a', chQuote, 'b'] ++ [')']))))) 0 =
        (inlineGo false 2 "x".toList 0).map
          (fun inner => "<a href=\"" ++ listStr ['a', chQuote, 'b'] ++ "\">" ++
            inner ++ "</a>")) ∧
      (inlineGo false (2 + 1) ('!' :: ('[' :: ("x".toList ++ (']' :: ('(' ::
          (['a', chQuote, 'b'] ++ [')'])))))) 0 =
        some ("<img src=\"" ++ listStr ['a', chQuote, 'b'] ++ "\" alt=\"" ++
          listStr "x".toList ++ "\">"))) :=
  ⟨by decide, by decide,
    c3_link_image_emit_raw_url false 2 "x".toList ['a', chQuote, 'b']
      (by decide) (by decide) (by decide) (by decide)⟩

end OM
